import Mathlib

/-!
Shallow embedding of the UCP reliable-UDP transport of this repository
(file src/ucp.rs) and of the client front-end entry point
(file src/bin/stunnel_client.rs), with theorems settling the claims
about the packet codec and the stream engine.

Conventions of the embedding:
* Rust u32 values are Nat; wrapping arithmetic is explicit `% 4294967296`
  (written as the literal, 2 to the 32nd power).  Rust u8 bytes are Nat
  with writes truncated `% 256` as in the machine.
* The fixed 1400-byte packet buffer is a total function `Nat -> Nat`
  (memory model); reads outside the written region return whatever the
  initial function held, exactly as the Rust buffer holds zeros or stale
  bytes there.
* Wall-clock instants (time::Timespec in the source) are Int milliseconds,
  and `get_time()` becomes an explicit `now : Int` parameter.
* The stream engine works on parsed packets, whose payload region
  buf[29 .. 29+payload] is represented as `payload : List Nat` with the
  read cursor `read_pos` counting consumed payload bytes
  (source read_pos minus the 29-byte header).
* Sends over the UDP socket are recorded as lists of emitted packets;
  the on_update / on_broken callbacks are an explicit function parameter
  and an invocation flag, since the source stores them as boxed closures.
-/

/-- Wrapping 32-bit difference `(a - b)` on u32, i.e. `a.wrapping_sub(b)`:
the value `(a - b) mod 2^32` as a Nat in [0, 2^32). -/
def sub32 (a b : Nat) : Nat :=
  (a % 4294967296 + (4294967296 - b % 4294967296)) % 4294967296

/-- Reinterpret a u32 value (a Nat in [0, 2^32)) as a signed i32 integer. -/
def toSigned32 (x : Nat) : Int :=
  if x < 2147483648 then (x : Int) else (x : Int) - 4294967296

/-- The test `((a - b) as i32) < 0` from src/ucp.rs, used on seq/una values:
true when a precedes b in sequence order.  On u32 values it is exactly
"the wrapping difference has its top bit set". -/
def seqBefore (a b : Nat) : Bool :=
  decide (2147483648 ≤ sub32 a b)

/-- The in-flight gap test of UcpStream::send_pending_packets:
`let seq_diff = (p.seq - q.seq) as usize; seq_diff >= window`.
The u32 wrapping difference is zero-extended to usize and compared
unsigned against the window. -/
def seqGapGe (window pseq qseq : Nat) : Bool :=
  decide (window ≤ sub32 pseq qseq)

/-- One shift step of the bitwise CRC-32 (IEEE) computation:
shift right once, xor the reversed polynomial 0xEDB88320 if the low bit
was set. -/
def crcStep (c : Nat) : Nat :=
  if c % 2 = 1 then (c / 2) ^^^ 0xEDB88320 else c / 2

/-- Absorb one byte into a CRC-32 accumulator: xor the byte in, then do
eight shift steps. -/
def crcByte (c b : Nat) : Nat :=
  crcStep (crcStep (crcStep (crcStep (crcStep (crcStep (crcStep (crcStep (c ^^^ b % 256))))))))

/-- crc32::checksum_ieee over a byte sequence. -/
def crc32_ieee (l : List Nat) : Nat :=
  (l.foldl crcByte 0xFFFFFFFF) ^^^ 0xFFFFFFFF

/-- Write one byte (UcpPacket::write_u8): store the low 8 bits at index i. -/
def writeU8 (b : Nat → Nat) (i v : Nat) : Nat → Nat :=
  fun j => if j = i then v % 256 else b j

/-- Write a u32 big-endian at index i (UcpPacket::write_u32 with u.to_be). -/
def writeU32 (b : Nat → Nat) (i u : Nat) : Nat → Nat :=
  writeU8 (writeU8 (writeU8 (writeU8 b i (u % 4294967296 / 16777216))
    (i + 1) (u % 4294967296 / 65536)) (i + 2) (u % 4294967296 / 256))
    (i + 3) (u % 4294967296)

/-- Read a u32 big-endian at index i (UcpPacket::parse_u32 with from_be). -/
def readU32 (b : Nat → Nat) (i : Nat) : Nat :=
  b i * 16777216 + b (i + 1) * 65536 + b (i + 2) * 256 + b (i + 3)

/-- The bytes buf[i..j] of a buffer, as a list. -/
def bytesOf (b : Nat → Nat) (i j : Nat) : List Nat :=
  (List.range (j - i)).map (fun k => b (i + k))

/-- UcpPacket of src/ucp.rs: the 1400-byte datagram buffer together with
the decoded header fields and bookkeeping counters. -/
structure UcpPacket where
  buf : Nat → Nat
  size : Nat
  payload : Nat
  read_pos : Nat
  skip_times : Nat
  session_id : Nat
  timestamp : Nat
  window : Nat
  xmit : Nat
  una : Nat
  seq : Nat
  cmd : Nat

/-- UcpPacket::new(). -/
def UcpPacket.new : UcpPacket :=
  { buf := fun _ => 0, size := 0, payload := 0, read_pos := 0, skip_times := 0,
    session_id := 0, timestamp := 0, window := 0, xmit := 0, una := 0, seq := 0, cmd := 0 }

/-- UcpPacket::is_crc32_correct: parse the stored digest at offset 0 and
compare with the CRC-32 of bytes 4..size. -/
def UcpPacket.is_crc32_correct (p : UcpPacket) : Bool :=
  decide (crc32_ieee (bytesOf p.buf 4 p.size) = readU32 p.buf 0)

/-- UcpPacket::is_legal: size covers the 29-byte header and the CRC matches.
The Rust && short-circuits, so the CRC slice buf[4..size] is only taken
when size is at least 29. -/
def UcpPacket.is_legal (p : UcpPacket) : Bool :=
  decide (29 ≤ p.size) && p.is_crc32_correct

/-- UcpPacket::parse: on a legal buffer, decode payload length, reset the
read cursor past the header, decode the seven header fields, and accept
exactly the cmd codes 128 (SYN) through 133 (HEARTBEAT_ACK).
Returns the success flag together with the mutated packet. -/
def UcpPacket.parse (p : UcpPacket) : Bool × UcpPacket :=
  if p.is_legal then
    let p1 : UcpPacket :=
      { p with
        payload := (p.size - 29) % 65536,
        read_pos := 29,
        session_id := readU32 p.buf 4,
        timestamp := readU32 p.buf 8,
        window := readU32 p.buf 12,
        xmit := readU32 p.buf 16,
        una := readU32 p.buf 20,
        seq := readU32 p.buf 24,
        cmd := p.buf 28 }
    (decide (128 ≤ p1.cmd ∧ p1.cmd ≤ 133), p1)
  else (false, p)

/-- UcpPacket::pack: write the seven header fields big-endian at offsets
4..29, set size = payload + 29, and store the CRC-32 of bytes 4..size at
offset 0. -/
def UcpPacket.pack (p : UcpPacket) : UcpPacket :=
  let b7 := writeU8 (writeU32 (writeU32 (writeU32 (writeU32 (writeU32 (writeU32
    p.buf 4 p.session_id) 8 p.timestamp) 12 p.window) 16 p.xmit) 20 p.una) 24 p.seq)
    28 p.cmd
  let size := p.payload + 29
  let digest := crc32_ieee (bytesOf b7 4 size)
  { p with buf := writeU32 b7 0 digest, size := size }

/-- A parsed/queued packet as the stream engine sees it: the header fields
of UcpPacket plus the payload region buf[29 .. 29+payload] as a byte list.
read_pos counts consumed payload bytes (source read_pos minus 29), so
payload_remaining() = size - read_pos becomes payload.length - read_pos. -/
structure DPacket where
  session_id : Nat
  timestamp : Nat
  window : Nat
  xmit : Nat
  una : Nat
  seq : Nat
  cmd : Nat
  payload : List Nat
  read_pos : Nat
  skip_times : Nat
deriving DecidableEq, Repr

/-- UcpPacket::payload_remaining = size - read_pos. -/
def DPacket.payload_remaining (p : DPacket) : Nat :=
  p.payload.length - p.read_pos

/-- UcpPacket::remaining_load = 1400 - payload - 29. -/
def DPacket.remaining_load (p : DPacket) : Nat :=
  1400 - p.payload.length - 29

/-- The not-yet-consumed payload bytes buf[read_pos..size]. -/
def DPacket.remBytes (p : DPacket) : List Nat :=
  p.payload.drop p.read_pos

/-- UcpPacket::payload_read_slice into a destination of capacity cap:
copy min(payload_remaining, cap) bytes and advance the read cursor.
Returns the copied bytes (the source returns their count). -/
def DPacket.payload_read_slice (p : DPacket) (cap : Nat) : List Nat × DPacket :=
  let n := min p.payload_remaining cap
  ((p.payload.drop p.read_pos).take n, { p with read_pos := p.read_pos + n })

/-- UcpPacket::payload_write_slice: append the bytes if they fit in the
remaining load, otherwise leave the packet unchanged and report failure. -/
def DPacket.payload_write_slice (p : DPacket) (bs : List Nat) : Bool × DPacket :=
  if bs.length ≤ p.remaining_load then (true, { p with payload := p.payload ++ bs })
  else (false, p)

/-- The four big-endian bytes of a u32 value, as written by
UcpPacket::payload_write_u32. -/
def be32Bytes (u : Nat) : List Nat :=
  [u % 4294967296 / 16777216, u % 4294967296 / 65536 % 256,
   u % 4294967296 / 256 % 256, u % 4294967296 % 256]

/-- Reassemble a big-endian u32 from four bytes, as read by
UcpPacket::payload_read_u32. -/
def fromBE4 (a b c d : Nat) : Nat :=
  a % 256 * 16777216 + b % 256 * 65536 + c % 256 * 256 + d % 256

/-- UcpState of src/ucp.rs. -/
inductive UcpState where
  | NONE
  | ACCEPTING
  | CONNECTING
  | ESTABLISHED
deriving DecidableEq, Repr

/-- UcpStream of src/ucp.rs, minus the socket handle and the boxed
callbacks (sends and callback invocations are returned explicitly by the
operations that perform them).  Instants are Int milliseconds. -/
structure UcpStream where
  initial_time : Int
  alive_time : Int
  heartbeat : Int
  state : UcpState
  send_queue : List DPacket
  recv_queue : List DPacket
  send_buffer : List DPacket
  ack_list : List (Nat × Nat)
  session_id : Nat
  local_window : Nat
  remote_window : Nat
  seq : Nat
  una : Nat
  rto : Nat
deriving DecidableEq, Repr

/-- UcpStream::timestamp(): milliseconds since initial_time, truncated to
u32 (num_milliseconds() is i64, and the source casts with `as u32`). -/
def ts32 (now initial : Int) : Nat :=
  ((now - initial) % 4294967296).toNat

/-- UcpStream::recv main loop.  Arguments: una and capacity are fixed;
q is the remaining recv_queue, size the bytes written so far, acc those
bytes.  Each iteration reads from the front packet if its seq precedes
una (signed test), then pops it when fully drained. -/
def recvAux (una cap : Nat) (q : List DPacket) (size : Nat) (acc : List Nat) :
    List Nat × List DPacket :=
  if h1 : size < cap then
    match q with
    | [] => (acc, [])
    | p :: rest =>
      if seqBefore p.seq una then
        let n := min p.payload_remaining (cap - size)
        let chunk := (p.payload.drop p.read_pos).take n
        if p.payload_remaining ≤ n then
          recvAux una cap rest (size + n) (acc ++ chunk)
        else
          recvAux una cap ({ p with read_pos := p.read_pos + n } :: rest) (size + n) (acc ++ chunk)
      else (acc, p :: rest)
  else (acc, q)
termination_by q.length + (cap - size)
decreasing_by
  · simp only [List.length_cons]; omega
  · simp only [List.length_cons]
    have hn : min p.payload_remaining (cap - size) = cap - size := by omega
    omega

/-- UcpStream::recv: drain into a buffer of the given capacity, returning
the bytes written (the source returns their count) and the stream with
the drained recv_queue. -/
def UcpStream.recv (st : UcpStream) (cap : Nat) : List Nat × UcpStream :=
  let r := recvAux st.una cap st.recv_queue 0 []
  (r.1, { st with recv_queue := r.2 })

/-- UcpStream::process_una: pop the front of send_queue while its seq
precedes the cumulative ack (signed test). -/
def processUna (una : Nat) : List DPacket → List DPacket
  | [] => []
  | p :: rest => if seqBefore p.seq una then processUna una rest else p :: rest

/-- The scan of UcpStream::process_an_ack over send_queue: remove the
first entry whose seq matches; every entry before the match whose stored
timestamp is at most the acked timestamp gets skip_times incremented
(u32 wrapping).  When no entry matches, every such entry is incremented.
Returns the new queue and whether a match was removed. -/
def scanAck (s t : Nat) : List DPacket → List DPacket × Bool
  | [] => ([], false)
  | x :: xs =>
    if x.seq = s then (xs, true)
    else
      let x1 := if x.timestamp ≤ t then { x with skip_times := (x.skip_times + 1) % 4294967296 } else x
      let r := scanAck s t xs
      (x1 :: r.1, r.2)

/-- UcpStream::process_an_ack: update rto from the echoed timestamp
(rtt and the sum are u32 wrapping), then scan send_queue. -/
def processAnAck (nowTs : Nat) (st : UcpStream) (s t : Nat) : UcpStream × Bool :=
  let rtt := sub32 nowTs t
  let r := scanAck s t st.send_queue
  ({ st with rto := (st.rto + rtt) % 4294967296 / 2, send_queue := r.1 }, r.2)

/-- The pair-decoding loop of UcpStream::process_ack: read (seq, timestamp)
u32 pairs from the remaining payload while bytes remain. -/
def decodePairs : List Nat → List (Nat × Nat)
  | a :: b :: c :: d :: e :: f :: g :: h :: rest =>
    (fromBE4 a b c d, fromBE4 e f g h) :: decodePairs rest
  | _ => []

/-- UcpStream::process_ack: when the packet is an ACK whose payload length
is a multiple of 8, process each decoded (seq, timestamp) pair in order. -/
def processAck (now : Int) (st : UcpStream) (p : DPacket) : UcpStream :=
  if p.cmd = 130 ∧ p.payload.length % 8 = 0 then
    (decodePairs (p.payload.drop p.read_pos)).foldl
      (fun s pr => (processAnAck (ts32 now s.initial_time) s pr.1 pr.2).1) st
  else st

/-- The insertion scan of UcpStream::process_data: walk recv_queue,
returning none when an entry with equal seq is found (duplicate), and
otherwise the position of the first entry the packet precedes
(signed test), or the queue length. -/
def findPos (s : Nat) : List DPacket → Option Nat
  | [] => some 0
  | x :: xs =>
    if sub32 s x.seq = 0 then none
    else if 2147483648 ≤ sub32 s x.seq then some 0
    else (findPos s xs).map (· + 1)

/-- The una-advance loop of UcpStream::process_data: from index i, while
the entry at i has seq equal to una, increment una (u32 wrapping) and
move to the next entry. -/
def advanceUna (q : List DPacket) (i una : Nat) : Nat :=
  if h : i < q.length then
    if (q.get ⟨i, h⟩).seq = una then advanceUna q (i + 1) ((una + 1) % 4294967296)
    else una
  else una
termination_by q.length - i

/-- UcpStream::process_data: append the (seq, timestamp) ack pair, drop
the packet if its seq precedes una or duplicates a queued seq, otherwise
insert it in scan position and advance una over the now-contiguous run. -/
def processData (st : UcpStream) (pkt : DPacket) : UcpStream :=
  let st1 := { st with ack_list := st.ack_list ++ [(pkt.seq, pkt.timestamp)] }
  if seqBefore pkt.seq st1.una then st1
  else
    match findPos pkt.seq st1.recv_queue with
    | none => st1
    | some pos =>
      let q := st1.recv_queue.insertIdx pos pkt
      { st1 with recv_queue := q, una := advanceUna q pos st1.una }

/-- UcpStream::new_packet without the seq assignment
(UcpStream::new_noseq_packet): fresh packet carrying the stream's
session, current timestamp, local window and una. -/
def newNoseqPacket (st : UcpStream) (nowTs cmd : Nat) : DPacket :=
  { session_id := st.session_id, timestamp := nowTs, window := st.local_window,
    xmit := 0, una := st.una, seq := 0, cmd := cmd,
    payload := [], read_pos := 0, skip_times := 0 }

/-- UcpStream::new_packet: as new_noseq_packet but consuming the next
sequence number (UcpStream::next_seq, u32 wrapping increment).  Returns
the packet and the stream with the incremented seq counter. -/
def newPacket (st : UcpStream) (nowTs cmd : Nat) : DPacket × UcpStream :=
  let nseq := (st.seq + 1) % 4294967296
  ({ newNoseqPacket st nowTs cmd with seq := nseq }, { st with seq := nseq })

/-- UcpStream::do_heartbeat: when 2500 ms have elapsed since the last
heartbeat, send a HEARTBEAT (132) directly and reset the heartbeat clock.
Returns the stream and the packets sent. -/
def doHeartbeat (now : Int) (st : UcpStream) : UcpStream × List DPacket :=
  if 2500 ≤ now - st.heartbeat then
    ({ st with heartbeat := now }, [newNoseqPacket st (ts32 now st.initial_time) 132])
  else (st, [])

/-- The packing loop of UcpStream::send_ack_list: write (seq, timestamp)
pairs into the current ACK packet, emitting it and starting a fresh one
whenever fewer than 8 bytes of load remain.  Returns the emitted packets
and the final current packet. -/
def sendAckListAux (fresh : DPacket) : List (Nat × Nat) → DPacket → List DPacket × DPacket
  | [], cur => ([], cur)
  | (s, t) :: rest, cur =>
    let em : List DPacket × DPacket :=
      if cur.remaining_load < 8 then ([cur], fresh) else ([], cur)
    let cur2 := { em.2 with payload := em.2.payload ++ be32Bytes s ++ be32Bytes t }
    let r := sendAckListAux fresh rest cur2
    (em.1 ++ r.1, r.2)

/-- UcpStream::send_ack_list: if the ack_list is non-empty, pack all
pairs into ACK (130) packets, send them directly, and clear the list. -/
def sendAckList (now : Int) (st : UcpStream) : UcpStream × List DPacket :=
  if st.ack_list = [] then (st, [])
  else
    let fresh := newNoseqPacket st (ts32 now st.initial_time) 130
    let r := sendAckListAux fresh st.ack_list fresh
    ({ st with ack_list := [] }, r.1 ++ [r.2])

/-- The per-packet resend condition of UcpStream::timeout_resend:
the wrapping age reaches rto, or skip_times reached SKIP_RESEND_TIMES = 2. -/
def resendDue (nowTs rto : Nat) (p : DPacket) : Bool :=
  decide (rto ≤ sub32 nowTs p.timestamp) || decide (2 ≤ p.skip_times)

/-- The refresh applied to a resent packet: reset skip_times, refresh
window, una and timestamp, increment xmit (u32 wrapping). -/
def resendRefresh (nowTs lw una : Nat) (p : DPacket) : DPacket :=
  { p with
    skip_times := 0, window := lw, una := una, timestamp := nowTs,
    xmit := (p.xmit + 1) % 4294967296 }

/-- UcpStream::timeout_resend: refresh and retransmit every due packet of
send_queue in place.  Returns the stream and the packets sent. -/
def timeoutResend (now : Int) (st : UcpStream) : UcpStream × List DPacket :=
  let nowTs := ts32 now st.initial_time
  let f := fun p => if resendDue nowTs st.rto p then resendRefresh nowTs st.local_window st.una p else p
  ({ st with send_queue := st.send_queue.map f },
   st.send_queue.filterMap (fun p => if resendDue nowTs st.rto p then some (resendRefresh nowTs st.local_window st.una p) else none))

/-- The promotion loop of UcpStream::send_pending_packets: while the
in-flight queue is below the remote window, and the gap between the
oldest in-flight seq and the next pending seq stays under the window
(unsigned wrapping test seqGapGe), move the front pending packet to the
in-flight queue, refreshing window, una and timestamp, and send it.
Arguments: sq = send_queue, sb = send_buffer, sent = packets sent so far. -/
def sendPendingAux (window lw una nowTs : Nat) (sq : List DPacket) :
    List DPacket → List DPacket → List DPacket × List DPacket × List DPacket
  | [], sent => (sq, [], sent)
  | p :: rest, sent =>
    if sq.length < window then
      let brk := match sq.head? with
        | some q => seqGapGe window p.seq q.seq
        | none => false
      if brk then (sq, p :: rest, sent)
      else
        let p1 := { p with window := lw, una := una, timestamp := nowTs }
        sendPendingAux window lw una nowTs (sq ++ [p1]) rest (sent ++ [p1])
    else (sq, p :: rest, sent)

/-- UcpStream::send_pending_packets. -/
def sendPendingPackets (now : Int) (st : UcpStream) : UcpStream × List DPacket :=
  let r := sendPendingAux st.remote_window st.local_window st.una
    (ts32 now st.initial_time) st.send_queue st.send_buffer []
  ({ st with send_queue := r.1, send_buffer := r.2.1 }, r.2.2)

/-- The result of one UcpStream::update tick: the returned liveness flag,
whether on_broken was invoked, every packet the tick sent on the socket,
and the stream state afterwards. -/
structure UpdateResult where
  alive : Bool
  brokenInvoked : Bool
  sent : List DPacket
  post : UcpStream
deriving Repr

/-- UcpStream::update: check_if_alive first — when now - alive_time has
reached UCP_STREAM_BROKEN_MILLIS = 20000 the on_broken callback is
invoked and the tick returns false at once.  Otherwise run heartbeat,
ack flush, retransmission and promotion, then the on_update callback f,
whose boolean is the tick's result. -/
def update (now : Int) (f : UcpStream → UcpStream × Bool) (st : UcpStream) : UpdateResult :=
  if now - st.alive_time < 20000 then
    let r1 := doHeartbeat now st
    let r2 := sendAckList now r1.1
    let r3 := timeoutResend now r2.1
    let r4 := sendPendingPackets now r3.1
    let r5 := f r4.1
    { alive := r5.2, brokenInvoked := false,
      sent := r1.2 ++ r2.2 ++ r3.2 ++ r4.2, post := r5.1 }
  else { alive := false, brokenInvoked := true, sent := [], post := st }

/-- UcpStream::process_syn_ack: on a SYN_ACK (129) with an 8-byte payload,
echo its (seq, timestamp) in a direct ACK; a CONNECTING stream that finds
the echoed pair in flight becomes ESTABLISHED with una = seq + 1.
Returns the stream and the packets sent. -/
def processSynAck (now : Int) (st : UcpStream) (p : DPacket) : UcpStream × List DPacket :=
  if p.cmd = 129 ∧ p.payload.length = 8 then
    let s := fromBE4 (p.payload.getD 0 0) (p.payload.getD 1 0) (p.payload.getD 2 0) (p.payload.getD 3 0)
    let t := fromBE4 (p.payload.getD 4 0) (p.payload.getD 5 0) (p.payload.getD 6 0) (p.payload.getD 7 0)
    let ack := { newNoseqPacket st (ts32 now st.initial_time) 130 with
      payload := be32Bytes p.seq ++ be32Bytes p.timestamp }
    match st.state with
    | UcpState.CONNECTING =>
      let r := processAnAck (ts32 now st.initial_time) st s t
      if r.2 then
        ({ r.1 with state := UcpState.ESTABLISHED, una := (p.seq + 1) % 4294967296 }, [ack])
      else (r.1, [ack])
    | _ => (st, [ack])
  else (st, [])

/-- UcpStream::process_state_established: cumulative una processing, then
dispatch on cmd.  HEARTBEAT (132) answers with a direct HEARTBEAT_ACK
(133); HEARTBEAT_ACK refreshes alive_time (already refreshed by
processing for any packet, so it is the identity here). -/
def processStateEstablished (now : Int) (st : UcpStream) (p : DPacket) : UcpStream :=
  let st1 := { st with send_queue := processUna p.una st.send_queue }
  if p.cmd = 130 then processAck now st1 p
  else if p.cmd = 131 then processData st1 p
  else if p.cmd = 129 then (processSynAck now st1 p).1
  else st1

/-- UcpStream::process_state_accepting: an ACK (130) with an 8-byte
payload whose pair matches the in-flight SYN_ACK establishes the stream. -/
def processStateAccepting (now : Int) (st : UcpStream) (p : DPacket) : UcpStream :=
  if p.cmd = 130 ∧ p.payload.length = 8 then
    let s := fromBE4 (p.payload.getD 0 0) (p.payload.getD 1 0) (p.payload.getD 2 0) (p.payload.getD 3 0)
    let t := fromBE4 (p.payload.getD 4 0) (p.payload.getD 5 0) (p.payload.getD 6 0) (p.payload.getD 7 0)
    let r := processAnAck (ts32 now st.initial_time) st s t
    if r.2 then { r.1 with state := UcpState.ESTABLISHED } else r.1
  else st

/-- UcpStream::processing: drop a packet whose session_id differs,
otherwise refresh alive_time and remote_window and dispatch on state. -/
def processing (now : Int) (st : UcpStream) (p : DPacket) : UcpStream :=
  if st.session_id ≠ p.session_id then st
  else
    let st1 := { st with alive_time := now, remote_window := p.window }
    match st1.state with
    | UcpState.ACCEPTING => processStateAccepting now st1 p
    | UcpState.CONNECTING => (processSynAck now st1 p).1
    | UcpState.ESTABLISHED => processStateEstablished now st1 p
    | UcpState.NONE => st1

/-- The packet-filling loop of UcpStream::make_packet_send: while bytes
remain, allocate a DATA (131) packet with the next seq and fill it with
min(remaining_load, rest) = min 1371 rest bytes. -/
def makePacketSend (nowTs : Nat) (st : UcpStream) : List Nat → UcpStream
  | [] => st
  | b :: bs =>
    let r := newPacket st nowTs 131
    let size := min r.1.remaining_load (b :: bs).length
    let pkt := (r.1.payload_write_slice ((b :: bs).take size)).2
    makePacketSend nowTs { r.2 with send_buffer := r.2.send_buffer ++ [pkt] } ((b :: bs).drop size)
termination_by bs => bs.length
decreasing_by
  have hs : 0 < (newPacket st nowTs 131).1.remaining_load := by
    simp [newPacket, newNoseqPacket, DPacket.remaining_load]
  simp only [List.length_drop, List.length_cons]
  omega

/-- UcpStream::send: first fill the residual load of the last buffered
packet (whatever its cmd), then put the remainder into fresh DATA
packets via make_packet_send. -/
def UcpStream.send (nowTs : Nat) (st : UcpStream) (buf : List Nat) : UcpStream :=
  match st.send_buffer.getLast? with
  | some pkt =>
    let remain := min pkt.remaining_load buf.length
    let pkt1 := if 0 < remain then (pkt.payload_write_slice (buf.take remain)).2 else pkt
    let st1 := { st with send_buffer := st.send_buffer.dropLast ++ [pkt1] }
    if remain < buf.length then makePacketSend nowTs st1 (buf.drop remain) else st1
  | none =>
    if 0 < buf.length then makePacketSend nowTs st buf else st

/-- The possible terminations of main() in src/bin/stunnel_client.rs:
the getopts parse failure path (print usage, return), the key-length
validation path (print bounds, return), or running the tunnels. -/
inductive MainOutcome where
  | usageError
  | keyLengthError
  | ran
deriving DecidableEq, Repr

/-- Control flow of main() in src/bin/stunnel_client.rs.  getopts parsing
is external; its success is the parseOk flag.  The key-length bounds are
whatever Cryptor::key_size_range returns (the cipher module is outside
the embedded sources), passed in as keyMin and keyMax. -/
def clientMain (parseOk : Bool) (keyLen keyMin keyMax : Nat) : MainOutcome :=
  if parseOk = false then MainOutcome.usageError
  else if keyLen < keyMin ∨ keyMax < keyLen then MainOutcome.keyLengthError
  else MainOutcome.ran

/-- Process exit code of main() in src/bin/stunnel_client.rs.  The Rust
main returns the unit value on every path — the usage-error and
key-length paths println and `return` — and a unit-returning main exits
with status 0. -/
def clientMainExitCode (parseOk : Bool) (keyLen keyMin keyMax : Nat) : Nat :=
  match clientMain parseOk keyLen keyMin keyMax with
  | MainOutcome.usageError => 0
  | MainOutcome.keyLengthError => 0
  | MainOutcome.ran => 0

/-- Splitting of a byte stream into maximal DATA payload chunks of
MTU - 29 = 1371 bytes, the sizes the make_packet_send loop produces. -/
def chunks1371 : List Nat → List (List Nat)
  | [] => []
  | b :: bs => (b :: bs).take 1371 :: chunks1371 ((b :: bs).drop 1371)
termination_by bs => bs.length
decreasing_by simp only [List.length_drop, List.length_cons]; omega

/-- A concrete baseline stream state used by witnesses and counterexamples. -/
def st0 : UcpStream :=
  { initial_time := 0, alive_time := 0, heartbeat := 0, state := UcpState.ESTABLISHED,
    send_queue := [], recv_queue := [], send_buffer := [], ack_list := [],
    session_id := 1, local_window := 512, remote_window := 512, seq := 0, una := 1, rto := 100 }

/-- A concrete baseline DATA packet used by witnesses and counterexamples. -/
def dp0 : DPacket :=
  { session_id := 1, timestamp := 0, window := 512, xmit := 0, una := 0, seq := 1, cmd := 131,
    payload := [], read_pos := 0, skip_times := 0 }

/-- The skip_times increment applied by process_an_ack to an entry that
precedes the acked one and whose timestamp is at most the echoed one. -/
def ackSkipBump (t : Nat) (e : DPacket) : DPacket :=
  if e.timestamp ≤ t then { e with skip_times := (e.skip_times + 1) % 4294967296 } else e

/-- Well-formedness of the receive side relative to a window base b:
every queued seq and una lie in the forward half-window [b, b + 2^31]
(forward wrapping distance from b below 2^31, una at most 2^31), and
recv_queue is strictly increasing by forward distance from b - the order
the signed 32-bit comparisons of process_data implement. -/
def RecvWF (base una : Nat) (q : List DPacket) : Prop :=
  List.Pairwise (fun x y => sub32 x.seq base < sub32 y.seq base) q ∧
  (∀ x ∈ q, sub32 x.seq base < 2147483648 ∧ x.seq < 4294967296) ∧
  sub32 una base ≤ 2147483648 ∧ una < 4294967296

/-! ## Helper lemmas -/

theorem crcStep_lt (c : Nat) (h : c < 4294967296) : crcStep c < 4294967296 := by
  unfold crcStep
  split
  · have h1 : c / 2 < 2 ^ 32 := by omega
    have h2 : (0xEDB88320 : Nat) < 2 ^ 32 := by norm_num
    have := Nat.xor_lt_two_pow h1 h2
    simpa using this
  · omega

theorem crcByte_lt (c b : Nat) (h : c < 4294967296) : crcByte c b < 4294967296 := by
  unfold crcByte
  have h0 : c ^^^ b % 256 < 4294967296 := by
    have h1 : c < 2 ^ 32 := by omega
    have h2 : b % 256 < 2 ^ 32 := by
      have : b % 256 < 256 := Nat.mod_lt _ (by norm_num)
      omega
    have := Nat.xor_lt_two_pow h1 h2
    simpa using this
  exact crcStep_lt _ (crcStep_lt _ (crcStep_lt _ (crcStep_lt _ (crcStep_lt _
    (crcStep_lt _ (crcStep_lt _ (crcStep_lt _ h0)))))))

theorem crc32_ieee_lt (l : List Nat) : crc32_ieee l < 4294967296 := by
  unfold crc32_ieee
  have hf : ∀ (acc : Nat), acc < 4294967296 → l.foldl crcByte acc < 4294967296 := by
    induction l with
    | nil => intro acc h; simpa using h
    | cons x xs ih => intro acc h; exact ih _ (crcByte_lt _ _ h)
  have h1 : l.foldl crcByte 0xFFFFFFFF < 2 ^ 32 := by
    have := hf 0xFFFFFFFF (by norm_num)
    omega
  have h2 : (0xFFFFFFFF : Nat) < 2 ^ 32 := by norm_num
  have := Nat.xor_lt_two_pow h1 h2
  simpa using this

theorem writeU8_skip (b : Nat → Nat) (i v j : Nat) (h : j ≠ i) : writeU8 b i v j = b j := by
  simp [writeU8, h]

theorem writeU32_skip (b : Nat → Nat) (i u j : Nat) (h : j < i ∨ i + 4 ≤ j) :
    writeU32 b i u j = b j := by
  unfold writeU32
  rw [writeU8_skip _ _ _ _ (by omega), writeU8_skip _ _ _ _ (by omega),
    writeU8_skip _ _ _ _ (by omega), writeU8_skip _ _ _ _ (by omega)]

theorem readU32_writeU32_skip (b : Nat → Nat) (i u j : Nat) (h : j + 4 ≤ i ∨ i + 4 ≤ j) :
    readU32 (writeU32 b i u) j = readU32 b j := by
  unfold readU32
  rw [writeU32_skip _ _ _ _ (by omega), writeU32_skip _ _ _ _ (by omega),
    writeU32_skip _ _ _ _ (by omega), writeU32_skip _ _ _ _ (by omega)]

theorem readU32_writeU8_skip (b : Nat → Nat) (i v j : Nat) (h : j + 4 ≤ i ∨ i < j) :
    readU32 (writeU8 b i v) j = readU32 b j := by
  unfold readU32
  rw [writeU8_skip _ _ _ _ (by omega), writeU8_skip _ _ _ _ (by omega),
    writeU8_skip _ _ _ _ (by omega), writeU8_skip _ _ _ _ (by omega)]

theorem readU32_writeU32_self (b : Nat → Nat) (i u : Nat) :
    readU32 (writeU32 b i u) i = u % 4294967296 := by
  unfold readU32 writeU32 writeU8
  simp only [self_eq_add_right, Nat.add_left_cancel_iff]
  norm_num
  omega

theorem bytesOf_writeU32_zero (b : Nat → Nat) (u : Nat) (j : Nat) :
    bytesOf (writeU32 b 0 u) 4 j = bytesOf b 4 j := by
  unfold bytesOf
  apply List.map_congr_left
  intro k _
  exact writeU32_skip _ _ _ _ (by omega)

/-! ## C6: parse acceptance condition -/

/-- Claim C6: for every inbound buffer, UcpPacket::parse returns true
exactly when the recorded size is at least 29 bytes, the CRC-32 of bytes
4..size equals the stored first four bytes, and the cmd byte at offset 28
lies between 128 and 133; on any other input it returns false. -/
theorem parse_accepts_iff (p : UcpPacket) :
    (p.parse).1 = (decide (29 ≤ p.size) &&
      decide (crc32_ieee (bytesOf p.buf 4 p.size) = readU32 p.buf 0) &&
      decide (128 ≤ p.buf 28 ∧ p.buf 28 ≤ 133)) := by
  unfold UcpPacket.parse
  by_cases h : p.is_legal = true
  · rw [if_pos h]
    unfold UcpPacket.is_legal UcpPacket.is_crc32_correct at h
    simp only [Bool.and_eq_true, decide_eq_true_eq] at h
    simp [h.1, h.2]
  · rw [if_neg h]
    unfold UcpPacket.is_legal UcpPacket.is_crc32_correct at h
    simp only [Bool.and_eq_true, decide_eq_true_eq, not_and_or] at h
    rcases h with h | h <;> simp [h]

/-! ## C2: pack/parse round trip -/

/-- Claim C2: for every well-formed packet (cmd between 128 and 133,
payload at most 1400 - 29 = 1371 bytes, header fields in u32 range),
packing and then parsing returns true and reconstructs the packet: every
header field, the payload length and the payload bytes round-trip, and
the stored CRC-32 equals the checksum of bytes 4..size of the packed
buffer. -/
theorem pack_parse_roundtrip (p : UcpPacket)
    (hc1 : 128 ≤ p.cmd) (hc2 : p.cmd ≤ 133) (hpl : p.payload ≤ 1371)
    (hsid : p.session_id < 4294967296) (hts : p.timestamp < 4294967296)
    (hw : p.window < 4294967296) (hx : p.xmit < 4294967296)
    (hu : p.una < 4294967296) (hq : p.seq < 4294967296) :
    (p.pack.parse).1 = true ∧
    (p.pack.parse).2.session_id = p.session_id ∧
    (p.pack.parse).2.timestamp = p.timestamp ∧
    (p.pack.parse).2.window = p.window ∧
    (p.pack.parse).2.xmit = p.xmit ∧
    (p.pack.parse).2.una = p.una ∧
    (p.pack.parse).2.seq = p.seq ∧
    (p.pack.parse).2.cmd = p.cmd ∧
    (p.pack.parse).2.payload = p.payload ∧
    (∀ i : Nat, (p.pack.parse).2.buf (29 + i) = p.buf (29 + i)) ∧
    readU32 p.pack.buf 0 = crc32_ieee (bytesOf p.pack.buf 4 p.pack.size) := by
  unfold UcpPacket.pack
  simp only
  set b7 := writeU8 (writeU32 (writeU32 (writeU32 (writeU32 (writeU32 (writeU32
    p.buf 4 p.session_id) 8 p.timestamp) 12 p.window) 16 p.xmit) 20 p.una) 24 p.seq)
    28 p.cmd with hb7
  set size := p.payload + 29 with hsize
  set digest := crc32_ieee (bytesOf b7 4 size) with hdigest
  have hdlt : digest < 4294967296 := crc32_ieee_lt _
  set bf := writeU32 b7 0 digest with hbf
  have hcrc0 : readU32 bf 0 = digest := by
    rw [hbf, readU32_writeU32_self]; omega
  have hbytes : bytesOf bf 4 size = bytesOf b7 4 size := bytesOf_writeU32_zero _ _ _
  have hread4 : readU32 bf 4 = p.session_id := by
    rw [hbf, readU32_writeU32_skip _ _ _ _ (by omega), hb7,
      readU32_writeU8_skip _ _ _ _ (by omega),
      readU32_writeU32_skip _ _ _ _ (by omega),
      readU32_writeU32_skip _ _ _ _ (by omega),
      readU32_writeU32_skip _ _ _ _ (by omega),
      readU32_writeU32_skip _ _ _ _ (by omega),
      readU32_writeU32_skip _ _ _ _ (by omega),
      readU32_writeU32_self]
    omega
  have hread8 : readU32 bf 8 = p.timestamp := by
    rw [hbf, readU32_writeU32_skip _ _ _ _ (by omega), hb7,
      readU32_writeU8_skip _ _ _ _ (by omega),
      readU32_writeU32_skip _ _ _ _ (by omega),
      readU32_writeU32_skip _ _ _ _ (by omega),
      readU32_writeU32_skip _ _ _ _ (by omega),
      readU32_writeU32_skip _ _ _ _ (by omega),
      readU32_writeU32_self]
    omega
  have hread12 : readU32 bf 12 = p.window := by
    rw [hbf, readU32_writeU32_skip _ _ _ _ (by omega), hb7,
      readU32_writeU8_skip _ _ _ _ (by omega),
      readU32_writeU32_skip _ _ _ _ (by omega),
      readU32_writeU32_skip _ _ _ _ (by omega),
      readU32_writeU32_skip _ _ _ _ (by omega),
      readU32_writeU32_self]
    omega
  have hread16 : readU32 bf 16 = p.xmit := by
    rw [hbf, readU32_writeU32_skip _ _ _ _ (by omega), hb7,
      readU32_writeU8_skip _ _ _ _ (by omega),
      readU32_writeU32_skip _ _ _ _ (by omega),
      readU32_writeU32_skip _ _ _ _ (by omega),
      readU32_writeU32_self]
    omega
  have hread20 : readU32 bf 20 = p.una := by
    rw [hbf, readU32_writeU32_skip _ _ _ _ (by omega), hb7,
      readU32_writeU8_skip _ _ _ _ (by omega),
      readU32_writeU32_skip _ _ _ _ (by omega),
      readU32_writeU32_self]
    omega
  have hread24 : readU32 bf 24 = p.seq := by
    rw [hbf, readU32_writeU32_skip _ _ _ _ (by omega), hb7,
      readU32_writeU8_skip _ _ _ _ (by omega),
      readU32_writeU32_self]
    omega
  have hread28 : bf 28 = p.cmd := by
    rw [hbf, writeU32_skip _ _ _ _ (by omega), hb7]
    simp only [writeU8, if_pos]
    omega
  have hbuf29 : ∀ i : Nat, bf (29 + i) = p.buf (29 + i) := by
    intro i
    rw [hbf, writeU32_skip _ _ _ _ (by omega), hb7,
      writeU8_skip _ _ _ _ (by omega), writeU32_skip _ _ _ _ (by omega),
      writeU32_skip _ _ _ _ (by omega), writeU32_skip _ _ _ _ (by omega),
      writeU32_skip _ _ _ _ (by omega), writeU32_skip _ _ _ _ (by omega),
      writeU32_skip _ _ _ _ (by omega)]
  have hlegal : UcpPacket.is_legal { p with buf := bf, size := size } = true := by
    unfold UcpPacket.is_legal UcpPacket.is_crc32_correct
    simp only [Bool.and_eq_true, decide_eq_true_eq]
    constructor
    · omega
    · simpa [hbytes, hcrc0] using hdigest.symm
  unfold UcpPacket.parse
  rw [if_pos hlegal]
  simp only [hread4, hread8, hread12, hread16, hread20, hread24, hread28, hcrc0, hbytes,
    decide_eq_true_eq]
  refine ⟨⟨hc1, hc2⟩, trivial, trivial, trivial, trivial, trivial, trivial, trivial, ?_, hbuf29, trivial⟩
  omega

/-- Witness for C2: the round trip at a concrete packet (DATA cmd 131,
zeroed buffer, small field values, payload length 5). -/
theorem pack_parse_roundtrip_witness :
    (128 ≤ 131 ∧ 131 ≤ 133 ∧ 5 ≤ 1371 ∧ (7 : Nat) < 4294967296) ∧
    (({ buf := fun _ => 0, size := 0, payload := 5, read_pos := 0, skip_times := 0,
        session_id := 7, timestamp := 8, window := 512, xmit := 1, una := 2, seq := 3,
        cmd := 131 } : UcpPacket).pack.parse).1 = true := by
  constructor
  · exact ⟨by norm_num, by norm_num, by norm_num, by norm_num⟩
  · exact (pack_parse_roundtrip _ (by norm_num) (by norm_num) (by norm_num) (by norm_num)
      (by norm_num) (by norm_num) (by norm_num) (by norm_num) (by norm_num)).1

theorem recvAux_neg (una cap : Nat) (q : List DPacket) (size : Nat) (acc : List Nat)
    (h : ¬ size < cap) : recvAux una cap q size acc = (acc, q) := by
  rw [recvAux.eq_def]
  simp [h]

theorem recvAux_nil (una cap : Nat) (size : Nat) (acc : List Nat) (h : size < cap) :
    recvAux una cap [] size acc = (acc, []) := by
  rw [recvAux.eq_def]
  simp [h]

theorem recvAux_break (una cap : Nat) (p : DPacket) (rest : List DPacket) (size : Nat)
    (acc : List Nat) (h : size < cap) (hg : seqBefore p.seq una = false) :
    recvAux una cap (p :: rest) size acc = (acc, p :: rest) := by
  rw [recvAux.eq_def]
  simp [h, hg]

theorem recvAux_pop (una cap : Nat) (p : DPacket) (rest : List DPacket) (size : Nat)
    (acc : List Nat) (h : size < cap) (hg : seqBefore p.seq una = true)
    (hpop : p.payload_remaining ≤ min p.payload_remaining (cap - size)) :
    recvAux una cap (p :: rest) size acc =
      recvAux una cap rest (size + min p.payload_remaining (cap - size))
        (acc ++ (p.payload.drop p.read_pos).take (min p.payload_remaining (cap - size))) := by
  rw [recvAux.eq_def]
  simp [h, hg, hpop]

theorem recvAux_midread (una cap : Nat) (p : DPacket) (rest : List DPacket) (size : Nat)
    (acc : List Nat) (h : size < cap) (hg : seqBefore p.seq una = true)
    (hpop : ¬ p.payload_remaining ≤ min p.payload_remaining (cap - size)) :
    recvAux una cap (p :: rest) size acc =
      recvAux una cap ({ p with read_pos := p.read_pos + min p.payload_remaining (cap - size) } :: rest)
        (size + min p.payload_remaining (cap - size))
        (acc ++ (p.payload.drop p.read_pos).take (min p.payload_remaining (cap - size))) := by
  rw [recvAux.eq_def]
  simp [h, hg, hpop]

theorem recvAux_spec (una cap : Nat) :
    ∀ (q : List DPacket) (size : Nat) (acc : List Nat),
    size = acc.length → size ≤ cap →
    (recvAux una cap q size acc).1 =
      acc ++ (((q.takeWhile (fun p => seqBefore p.seq una)).map DPacket.remBytes).flatten).take (cap - size) ∧
    (recvAux una cap q size acc).1 ++ ((recvAux una cap q size acc).2.map DPacket.remBytes).flatten =
      acc ++ (q.map DPacket.remBytes).flatten ∧
    List.IsSuffix ((recvAux una cap q size acc).2.map DPacket.seq) (q.map DPacket.seq) := by
  intro q size acc hsz hle
  induction q, size, acc using recvAux.induct una cap with
  | case1 size acc hlt =>
    rw [recvAux_nil una cap size acc hlt]
    simp
  | case2 size acc hlt p rest hgate n chunk hpop ih =>
    rw [recvAux_pop una cap p rest size acc hlt hgate hpop]
    have hn : n = p.payload_remaining := by omega
    have hchunk_len : chunk.length = n := by
      simp only [chunk, List.length_take, List.length_drop]
      simp only [DPacket.payload_remaining] at hn ⊢
      omega
    have hrem : chunk = p.remBytes := by
      simp only [chunk, DPacket.remBytes, hn, DPacket.payload_remaining]
      exact List.take_of_length_le (by simp [List.length_drop])
    have hnle : n ≤ cap - size := by omega
    obtain ⟨ih1, ih2, ih3⟩ := ih (by simp [hsz, hchunk_len]) (by omega)
    have h1 : p.remBytes.length = n := by rw [← hrem, hchunk_len]
    refine ⟨?_, ?_, ?_⟩
    · rw [ih1]
      rw [List.takeWhile_cons, if_pos hgate]
      simp only [List.map_cons, List.flatten_cons]
      have hsplit : List.take (cap - size)
          (p.remBytes ++ (List.map DPacket.remBytes (List.takeWhile (fun p => seqBefore p.seq una) rest)).flatten) =
          p.remBytes ++ List.take (cap - (size + n))
            (List.map DPacket.remBytes (List.takeWhile (fun p => seqBefore p.seq una) rest)).flatten := by
        rw [List.take_append_eq_append_take, List.take_of_length_le (by omega), h1]
        congr 2
        omega
      rw [hsplit, ← hrem, List.append_assoc]
    · rw [ih2]
      simp only [List.map_cons, List.flatten_cons]
      rw [← hrem, List.append_assoc]
    · exact ih3.trans (by simp [List.suffix_cons])
  | case3 size acc hlt p rest hgate n chunk hpop ih =>
    rw [recvAux_midread una cap p rest size acc hlt hgate hpop]
    have hn : n = cap - size := by omega
    have hchunk_len : chunk.length = n := by
      simp only [chunk, List.length_take, List.length_drop]
      simp only [DPacket.payload_remaining, n, DPacket.payload_remaining] at hpop ⊢
      omega
    obtain ⟨ih1, ih2, ih3⟩ := ih (by simp [hsz, hchunk_len]) (by omega)
    have hrem_len : p.remBytes.length = p.payload_remaining := by
      simp [DPacket.remBytes, DPacket.payload_remaining]
    have h0 : cap - (size + n) = 0 := by omega
    refine ⟨?_, ?_, ?_⟩
    · rw [ih1, h0]
      simp only [List.take_zero, List.append_nil]
      rw [List.takeWhile_cons, if_pos hgate]
      simp only [List.map_cons, List.flatten_cons]
      have h1 : cap - size - p.remBytes.length = 0 := by omega
      rw [List.take_append_eq_append_take, h1]
      simp only [List.take_zero, List.append_nil]
      have h2 : (p.remBytes).take (cap - size) = chunk := by
        simp only [DPacket.remBytes, chunk]
        rw [hn]
      rw [h2]
    · rw [ih2]
      simp only [List.map_cons, List.flatten_cons]
      have hsplit : chunk ++ ({ p with read_pos := p.read_pos + n } : DPacket).remBytes = p.remBytes := by
        simp only [chunk, DPacket.remBytes]
        rw [← List.drop_drop]
        exact List.take_append_drop _ _
      rw [← List.append_assoc, ← List.append_assoc, List.append_assoc acc chunk, hsplit]
    · refine ih3.trans ?_
      simp
  | case4 size acc hlt p rest hgate =>
    rw [recvAux_break una cap p rest size acc hlt (by simpa using hgate)]
    rw [List.takeWhile_cons, if_neg (by simpa using hgate)]
    simp
  | case5 q size acc hlt =>
    rw [recvAux_neg una cap q size acc hlt]
    have : cap - size = 0 := by omega
    simp [this]

/-- Claim C3: UcpStream::recv copies bytes only from the front packets of
recv_queue whose seq precedes una under the signed 32-bit test, in order,
stopping at the first packet with seq at or after una: the bytes returned
are exactly the first buffer-capacity bytes of the pending payloads of
that contiguous prefix.  Byte conservation (second conjunct) states that
read cursors advance and packets are popped exactly as their payload is
drained: returned bytes followed by the remaining queued bytes are the
original queued bytes.  The remaining queue is a suffix of the original
(popping happens only at the front), and the returned byte count is at
most the buffer capacity. -/
theorem recv_drain_spec (st : UcpStream) (cap : Nat) :
    (st.recv cap).1.length ≤ cap ∧
    (st.recv cap).1 =
      (((st.recv_queue.takeWhile (fun p => seqBefore p.seq st.una)).map DPacket.remBytes).flatten).take cap ∧
    (st.recv cap).1 ++ (((st.recv cap).2.recv_queue.map DPacket.remBytes).flatten) =
      (st.recv_queue.map DPacket.remBytes).flatten ∧
    List.IsSuffix ((st.recv cap).2.recv_queue.map DPacket.seq) (st.recv_queue.map DPacket.seq) := by
  obtain ⟨h1, h2, h3⟩ := recvAux_spec st.una cap st.recv_queue 0 [] rfl (Nat.zero_le _)
  have e1 : (st.recv cap).1 = (recvAux st.una cap st.recv_queue 0 []).1 := rfl
  have e2 : (st.recv cap).2.recv_queue = (recvAux st.una cap st.recv_queue 0 []).2 := rfl
  rw [e1, e2, h1]
  simp only [List.nil_append, Nat.sub_zero] at h1 h2 ⊢
  refine ⟨by simp, trivial, ?_, h3⟩
  rw [← h1]
  exact h2

/-! ## C5: sequence-number comparisons -/

/-- Claim C5 (amended): the ordering tests on seq/una in recv,
process_una and process_data all use the signed 32-bit difference test
seqBefore, which decides ordering correctly under wrap-around: the
reinterpreted difference toSigned32 (sub32 a b) is congruent to a - b
modulo 2^32 and lies in [-2^31, 2^31), and seqBefore is exactly its
negativity.  The in-flight gap check of send_pending_packets, however,
compares the wrapping difference zero-extended to usize against the
window unsigned - not as a signed i32. -/
theorem seq_compare_spec (a b w : Nat) (ha : a < 4294967296) (hb : b < 4294967296) :
    (seqBefore a b = decide (toSigned32 (sub32 a b) < 0)) ∧
    Int.ModEq 4294967296 (toSigned32 (sub32 a b)) ((a : Int) - (b : Int)) ∧
    (-2147483648 ≤ toSigned32 (sub32 a b) ∧ toSigned32 (sub32 a b) < 2147483648) ∧
    (seqGapGe w a b = decide (w ≤ sub32 a b)) := by
  refine ⟨?_, ?_, ?_, rfl⟩
  · simp only [seqBefore, toSigned32, sub32, decide_eq_decide]
    split <;> omega
  · simp only [toSigned32, sub32, Int.ModEq]
    split <;> omega
  · simp only [toSigned32, sub32]
    split <;> omega

/-- Witness for C5 at a = 5, b = 7, w = 3. -/
theorem seq_compare_spec_witness :
    ((5 : Nat) < 4294967296 ∧ (7 : Nat) < 4294967296) ∧
    (seqBefore 5 7 = decide (toSigned32 (sub32 5 7) < 0)) ∧
    Int.ModEq 4294967296 (toSigned32 (sub32 5 7)) ((5 : Int) - (7 : Int)) ∧
    (-2147483648 ≤ toSigned32 (sub32 5 7) ∧ toSigned32 (sub32 5 7) < 2147483648) ∧
    (seqGapGe 3 5 7 = decide (3 ≤ sub32 5 7)) :=
  ⟨⟨by norm_num, by norm_num⟩, seq_compare_spec 5 7 3 (by norm_num) (by norm_num)⟩

/-- Counterexample for C5 as stated: the in-flight gap check of
send_pending_packets does not compute a signed 32-bit comparison.  With
pending seq 2^31, in-flight seq 0 and window 512 the code breaks out of
the promotion loop (unsigned gap 2^31 at least 512), while the signed
32-bit difference is -2^31, which is below 512. -/
theorem gap_check_not_signed :
    seqGapGe 512 2147483648 0 = true ∧
    ¬ ((512 : Int) ≤ toSigned32 (sub32 2147483648 0)) := by
  constructor
  · decide
  · simp only [toSigned32, sub32]
    norm_num

/-! ## C7: liveness timeout -/

/-- Claim C7: whenever UcpStream::update runs at a time now with
now - alive_time at least UCP_STREAM_BROKEN_MILLIS = 20000, the on_broken
callback is invoked and update returns false, with no heartbeat, no
ack_list flush, no retransmission and no promotion on that tick (nothing
is sent and the stream state is untouched); whenever now - alive_time is
below 20000, on_broken is not invoked. -/
theorem update_broken_spec (now : Int) (f : UcpStream → UcpStream × Bool) (st : UcpStream) :
    (20000 ≤ now - st.alive_time →
      update now f st = { alive := false, brokenInvoked := true, sent := [], post := st }) ∧
    (now - st.alive_time < 20000 → (update now f st).brokenInvoked = false) := by
  unfold update
  constructor <;> intro h
  · rw [if_neg (by omega)]
  · rw [if_pos (by omega)]

/-- Witness for C7: at now = 20000 on the baseline stream (alive_time 0)
the tick reports broken, returns false, sends nothing and leaves the
state unchanged. -/
theorem update_broken_spec_witness :
    (20000 ≤ (20000 : Int) - st0.alive_time) ∧
    update 20000 (fun s => (s, true)) st0 =
      { alive := false, brokenInvoked := true, sent := [], post := st0 } := by
  refine ⟨by norm_num [st0], ?_⟩
  exact (update_broken_spec 20000 (fun s => (s, true)) st0).1 (by norm_num [st0])

theorem scanAck_first_match (s0 t : Nat) :
    ∀ (q : List DPacket) (j : Nat) (hj : j < q.length),
    (q.get ⟨j, hj⟩).seq = s0 →
    (∀ i (hi : i < j), (q.get ⟨i, Nat.lt_trans hi hj⟩).seq ≠ s0) →
    scanAck s0 t q = ((q.take j).map (ackSkipBump t) ++ q.drop (j + 1), true) := by
  intro q
  induction q with
  | nil => intro j hj; simp at hj
  | cons x xs ih =>
    intro j hj hmatch hbefore
    match j with
    | 0 =>
      simp only [List.get] at hmatch
      simp [scanAck, hmatch]
    | j + 1 =>
      have hx : x.seq ≠ s0 := by
        have := hbefore 0 (Nat.succ_pos j)
        simpa using this
      have hj' : j < xs.length := by simpa using hj
      have hmatch' : (xs.get ⟨j, hj'⟩).seq = s0 := by simpa using hmatch
      have hbefore' : ∀ i (hi : i < j), (xs.get ⟨i, Nat.lt_trans hi hj'⟩).seq ≠ s0 := by
        intro i hi
        have := hbefore (i + 1) (by omega)
        simpa using this
      simp only [scanAck, if_neg hx]
      rw [ih j hj' hmatch' hbefore']
      simp [ackSkipBump, List.take_succ_cons, List.drop_succ_cons]

/-! ## C4: ACK processing -/

/-- Claim C4: for a stream processing an ACK packet whose payload length
is a multiple of 8, process_ack handles each decoded (seq, timestamp)
pair in order by folding process_an_ack over them; and each
process_an_ack scans send_queue so that the first entry whose seq equals
the pair's seq is removed, every entry preceding the match whose stored
timestamp is at most the pair's timestamp has skip_times incremented,
entries after the match are untouched, and rto becomes
(rto + rtt) / 2 with rtt the wrapping difference between the current
stream timestamp and the pair's timestamp. -/
theorem process_ack_pairs_spec (now : Int) (st : UcpStream) (p : DPacket)
    (hcmd : p.cmd = 130) (hlen : p.payload.length % 8 = 0) (hrp : p.read_pos = 0) :
    processAck now st p = (decodePairs p.payload).foldl
      (fun s pr => (processAnAck (ts32 now s.initial_time) s pr.1 pr.2).1) st ∧
    (∀ (nowTs s0 t : Nat) (s : UcpStream) (j : Nat) (hj : j < s.send_queue.length),
      (s.send_queue.get ⟨j, hj⟩).seq = s0 →
      (∀ i (hi : i < j), (s.send_queue.get ⟨i, Nat.lt_trans hi hj⟩).seq ≠ s0) →
      (processAnAck nowTs s s0 t).1.send_queue =
        (s.send_queue.take j).map (ackSkipBump t) ++ s.send_queue.drop (j + 1) ∧
      (processAnAck nowTs s s0 t).1.rto = (s.rto + sub32 nowTs t) % 4294967296 / 2) := by
  constructor
  · simp [processAck, hcmd, hlen, hrp]
  · intro nowTs s0 t s j hj hmatch hbefore
    constructor
    · simp only [processAnAck]
      rw [scanAck_first_match s0 t s.send_queue j hj hmatch hbefore]
    · simp [processAnAck]

/-- Witness for C4: an ACK packet with the single pair (5, 9) processed
against a queue holding seqs 4 (timestamp 3) and 5: entry 5 is removed,
entry 4 gets its skip_times bump, and rto becomes (100 + 1) / 2. -/
theorem process_ack_pairs_spec_witness :
    (({ dp0 with cmd := 130, payload := [0, 0, 0, 5, 0, 0, 0, 9] } : DPacket).cmd = 130 ∧
      ({ dp0 with cmd := 130, payload := [0, 0, 0, 5, 0, 0, 0, 9] } : DPacket).payload.length % 8 = 0 ∧
      ({ dp0 with cmd := 130, payload := [0, 0, 0, 5, 0, 0, 0, 9] } : DPacket).read_pos = 0) ∧
    processAck 0 st0 { dp0 with cmd := 130, payload := [0, 0, 0, 5, 0, 0, 0, 9] } =
      (decodePairs [0, 0, 0, 5, 0, 0, 0, 9]).foldl
        (fun s pr => (processAnAck (ts32 0 s.initial_time) s pr.1 pr.2).1) st0 ∧
    (processAnAck 10
        { st0 with send_queue := [{ dp0 with seq := 4, timestamp := 3 }, { dp0 with seq := 5 }] }
        5 9).1.send_queue =
      [{ dp0 with seq := 4, timestamp := 3 }].map (ackSkipBump 9) ++ [] ∧
    (processAnAck 10
        { st0 with send_queue := [{ dp0 with seq := 4, timestamp := 3 }, { dp0 with seq := 5 }] }
        5 9).1.rto = (100 + sub32 10 9) % 4294967296 / 2 := by
  have h := process_ack_pairs_spec 0 st0 { dp0 with cmd := 130, payload := [0, 0, 0, 5, 0, 0, 0, 9] }
    rfl rfl rfl
  have h2 := h.2 10 5 9
    { st0 with send_queue := [{ dp0 with seq := 4, timestamp := 3 }, { dp0 with seq := 5 }] }
    1 (by decide) rfl (by intro i hi; have h0 : i = 0 := Nat.lt_one_iff.mp hi; subst h0; simp)
  exact ⟨⟨rfl, rfl, rfl⟩, h.1, h2.1, h2.2⟩

/-! ## C9: client front-end exit codes -/

/-- Claim C9 (amended): the client front-end exits with code 0 on normal
termination, and also with code 0 when argument parsing fails or the key
length is out of the cipher module's bounds: those paths print a message
and return from main, and a unit-returning Rust main exits 0. -/
theorem client_main_exit_spec (parseOk : Bool) (keyLen keyMin keyMax : Nat) :
    clientMainExitCode parseOk keyLen keyMin keyMax = 0 ∧
    (parseOk = false → clientMain parseOk keyLen keyMin keyMax = MainOutcome.usageError) ∧
    (parseOk = true → keyLen < keyMin ∨ keyMax < keyLen →
      clientMain parseOk keyLen keyMin keyMax = MainOutcome.keyLengthError) := by
  refine ⟨?_, ?_, ?_⟩
  · unfold clientMainExitCode
    split <;> rfl
  · intro h
    simp [clientMain, h]
  · intro h hk
    simp [clientMain, h, hk]

/-- Witness for C9 (amended claim) at a failing parse. -/
theorem client_main_exit_spec_witness :
    (false = false) ∧
    clientMainExitCode false 5 1 100 = 0 ∧
    clientMain false 5 1 100 = MainOutcome.usageError :=
  ⟨rfl, (client_main_exit_spec false 5 1 100).1,
    (client_main_exit_spec false 5 1 100).2.1 rfl⟩

/-- Counterexample for C9 as stated: the claim requires a non-zero exit
code on argument-parse failure and on key-length failure, but main
returns unit (exit code 0) on both paths. -/
theorem exit_code_zero_on_errors :
    clientMain false 5 1 100 = MainOutcome.usageError ∧
    clientMainExitCode false 5 1 100 = 0 ∧
    clientMain true 0 1 100 = MainOutcome.keyLengthError ∧
    clientMainExitCode true 0 1 100 = 0 := by
  refine ⟨rfl, rfl, ?_, rfl⟩
  simp [clientMain]

/-! ## C10: send fills the last buffered packet regardless of cmd -/

theorem makePacketSend_spec (nowTs : Nat) :
    ∀ (bs : List Nat) (st : UcpStream),
    ∃ ps : List DPacket,
      (makePacketSend nowTs st bs).send_buffer = st.send_buffer ++ ps ∧
      ps.map DPacket.payload = chunks1371 bs ∧
      ∀ p ∈ ps, p.cmd = 131 := by
  intro bs st
  induction st, bs using makePacketSend.induct nowTs with
  | case1 st =>
    refine ⟨[], by simp [makePacketSend], by simp [chunks1371], by simp⟩
  | case2 st b bs r size pkt ih =>
    obtain ⟨ps, hbuf, hpl, hcmd⟩ := ih
    have hrem : r.1.remaining_load = 1371 := by
      simp [r, newPacket, newNoseqPacket, DPacket.remaining_load]
    have hsz : size = min 1371 (b :: bs).length := by
      simp only [size, hrem]
    have hguard : ((b :: bs).take size).length ≤ r.1.remaining_load := by
      simp only [List.length_take, hrem, hsz]
      omega
    have hpl0 : r.1.payload = [] := by simp [r, newPacket, newNoseqPacket]
    have hpkt_pl : pkt.payload = (b :: bs).take 1371 := by
      simp only [pkt, DPacket.payload_write_slice, if_pos hguard]
      rw [hpl0]
      simp only [List.nil_append]
      rw [hsz]
      rcases Nat.le_total (b :: bs).length 1371 with hle | hle
      · rw [Nat.min_eq_right hle, List.take_length, List.take_of_length_le hle]
      · rw [Nat.min_eq_left hle]
    have hpkt_cmd : pkt.cmd = 131 := by
      simp only [pkt, DPacket.payload_write_slice]
      split <;> simp [r, newPacket, newNoseqPacket]
    have hdrop : (b :: bs).drop size = (b :: bs).drop 1371 := by
      rw [hsz]
      rcases Nat.le_total (b :: bs).length 1371 with hle | hle
      · rw [Nat.min_eq_right hle, List.drop_length, List.drop_eq_nil_of_le hle]
      · rw [Nat.min_eq_left hle]
    rw [makePacketSend]
    refine ⟨pkt :: ps, ?_, ?_, ?_⟩
    · simp only at hbuf ⊢
      rw [hbuf]
      have hsb : r.2.send_buffer = st.send_buffer := by simp [r, newPacket]
      rw [hsb, List.append_assoc, List.singleton_append]
    · rw [chunks1371]
      simp only [List.map_cons]
      rw [hpkt_pl, hpl, hdrop]
    · intro p hp
      rcases List.mem_cons.mp hp with h | h
      · rw [h]; exact hpkt_cmd
      · exact hcmd p h

/-- Claim C10: when send_buffer is non-empty and its last packet has
residual payload capacity, UcpStream::send first appends bytes into that
last packet's payload regardless of its cmd (the updated packet keeps
its cmd - in particular a buffered SYN or SYN_ACK receives application
data), and only the remainder of the buffer goes into newly allocated
DATA (131) packets, in 1371-byte chunks. -/
theorem send_appends_to_last_buffered_packet (nowTs : Nat) (st : UcpStream) (buf : List Nat)
    (init : List DPacket) (last : DPacket)
    (hsb : st.send_buffer = init ++ [last]) (hcap : 0 < last.remaining_load) :
    ∃ ps : List DPacket,
      (st.send nowTs buf).send_buffer =
        init ++ { last with payload := last.payload ++ buf.take (min last.remaining_load buf.length) } :: ps ∧
      ps.map DPacket.payload = chunks1371 (buf.drop (min last.remaining_load buf.length)) ∧
      (∀ p ∈ ps, p.cmd = 131) ∧
      ({ last with payload := last.payload ++ buf.take (min last.remaining_load buf.length) } : DPacket).cmd
        = last.cmd := by
  unfold UcpStream.send
  rw [hsb, List.getLast?_concat]
  simp only
  by_cases hbe : min last.remaining_load buf.length < buf.length
  · rw [if_pos hbe]
    have hlen0 : 0 < buf.length := by omega
    have h0 : 0 < min last.remaining_load buf.length := by omega
    rw [if_pos h0]
    have hguard : (buf.take (min last.remaining_load buf.length)).length ≤ last.remaining_load := by
      simp only [List.length_take]
      omega
    simp only [DPacket.payload_write_slice, if_pos hguard]
    obtain ⟨ps, hbuf2, hpl, hcmd⟩ := makePacketSend_spec nowTs
      (buf.drop (min last.remaining_load buf.length))
      { st with send_buffer := (init ++ [last]).dropLast ++
          [{ last with payload := last.payload ++ buf.take (min last.remaining_load buf.length) }] }
    refine ⟨ps, ?_, hpl, hcmd, trivial⟩
    rw [hbuf2]
    simp only [List.dropLast_concat]
    rw [List.append_assoc, List.singleton_append]
  · rw [if_neg hbe]
    have hmin : min last.remaining_load buf.length = buf.length := by omega
    refine ⟨[], ?_, by rw [hmin, List.drop_length]; simp [chunks1371], by simp, trivial⟩
    simp only [List.dropLast_concat]
    by_cases hl0 : 0 < min last.remaining_load buf.length
    · rw [if_pos hl0]
      have hguard : (buf.take (min last.remaining_load buf.length)).length ≤ last.remaining_load := by
        simp only [List.length_take]
        omega
      simp only [DPacket.payload_write_slice, if_pos hguard]
    · rw [if_neg hl0]
      have hbuf0 : buf.length = 0 := by omega
      have hbufnil : buf = [] := List.length_eq_zero.mp hbuf0
      subst hbufnil
      simp

/-- Witness for C10: a buffered SYN (cmd 128) with payload [1, 2] and
room to spare receives the three sent bytes [9, 8, 7] directly into its
payload; no new DATA packet is allocated. -/
theorem send_appends_witness :
    (({ st0 with send_buffer := [{ dp0 with cmd := 128, payload := [1, 2] }] } : UcpStream).send_buffer
      = [] ++ [{ dp0 with cmd := 128, payload := [1, 2] }]) ∧
    (0 < ({ dp0 with cmd := 128, payload := [1, 2] } : DPacket).remaining_load) ∧
    (({ st0 with send_buffer := [{ dp0 with cmd := 128, payload := [1, 2] }] } : UcpStream).send
        5 [9, 8, 7]).send_buffer
      = [{ dp0 with cmd := 128, payload := [1, 2, 9, 8, 7] }] := by
  refine ⟨rfl, by decide, ?_⟩
  obtain ⟨ps, h1, h2, h3, h4⟩ := send_appends_to_last_buffered_packet 5
    { st0 with send_buffer := [{ dp0 with cmd := 128, payload := [1, 2] }] } [9, 8, 7]
    [] { dp0 with cmd := 128, payload := [1, 2] } rfl (by decide)
  have hch : chunks1371 (([9, 8, 7] : List Nat).drop
      (min ({ dp0 with cmd := 128, payload := [1, 2] } : DPacket).remaining_load
        ([9, 8, 7] : List Nat).length)) = [] := by
    norm_num [DPacket.remaining_load, dp0, chunks1371]
  rw [hch] at h2
  have hps : ps = [] := List.map_eq_nil.mp h2
  subst hps
  rw [h1]
  norm_num [DPacket.remaining_load, dp0]

theorem sub32_self (s : Nat) : sub32 s s = 0 := by
  simp only [sub32]
  omega

theorem processUna_idem (u : Nat) (q : List DPacket) :
    processUna u (processUna u q) = processUna u q := by
  induction q with
  | nil => rfl
  | cons p rest ih =>
    by_cases h : seqBefore p.seq u
    · simp [processUna, h, ih]
    · simp [processUna, h]

theorem findPos_le (s : Nat) : ∀ (q : List DPacket) (pos : Nat),
    findPos s q = some pos → pos ≤ q.length := by
  intro q
  induction q with
  | nil =>
    intro pos h
    simp only [findPos, Option.some.injEq] at h
    omega
  | cons x xs ih =>
    intro pos h
    simp only [findPos] at h
    by_cases h0 : sub32 s x.seq = 0
    · rw [if_pos h0] at h; exact absurd h (by simp)
    · rw [if_neg h0] at h
      by_cases h1 : 2147483648 ≤ sub32 s x.seq
      · rw [if_pos h1] at h
        simp only [Option.some.injEq] at h
        omega
      · rw [if_neg h1] at h
        rcases Option.map_eq_some'.mp h with ⟨k, hk, hpos⟩
        have := ih k hk
        simp only [List.length_cons]
        omega

theorem findPos_insert_dup (s : Nat) (w : DPacket) (hw : w.seq = s) :
    ∀ (q : List DPacket) (pos : Nat),
    findPos s q = some pos → findPos s (q.insertIdx pos w) = none := by
  intro q
  induction q with
  | nil =>
    intro pos h
    simp only [findPos, Option.some.injEq] at h
    subst h
    simp [List.insertIdx_zero, findPos, hw, sub32_self]
  | cons x xs ih =>
    intro pos h
    simp only [findPos] at h
    by_cases h0 : sub32 s x.seq = 0
    · rw [if_pos h0] at h; exact absurd h (by simp)
    · rw [if_neg h0] at h
      by_cases h1 : 2147483648 ≤ sub32 s x.seq
      · rw [if_pos h1] at h
        simp only [Option.some.injEq] at h
        subst h
        simp [List.insertIdx_zero, findPos, hw, sub32_self]
      · rw [if_neg h1] at h
        rcases Option.map_eq_some'.mp h with ⟨k, hk, hpos⟩
        subst hpos
        rw [List.insertIdx_succ_cons]
        simp only [findPos, if_neg h0, if_neg h1]
        rw [ih k hk]
        rfl

theorem advanceUna_cases (q : List DPacket) : ∀ (i una : Nat), una < 4294967296 →
    (advanceUna q i una = una ∧ ∀ h : i < q.length, (q.get ⟨i, h⟩).seq ≠ una) ∨
    (∃ k, 1 ≤ k ∧ k ≤ q.length - i ∧
      (∃ h : i < q.length, (q.get ⟨i, h⟩).seq = una) ∧
      advanceUna q i una = (una + k) % 4294967296) := by
  intro i una
  induction i, una using advanceUna.induct q with
  | case1 i h ih =>
    intro huna
    rcases ih (by omega) with ⟨heq, _⟩ | ⟨k, hk1, hk2, _, heq⟩
    · right
      refine ⟨1, le_refl 1, by omega, ⟨h, rfl⟩, ?_⟩
      rw [advanceUna, dif_pos h, if_pos rfl, heq]
    · right
      refine ⟨k + 1, by omega, by omega, ⟨h, rfl⟩, ?_⟩
      rw [advanceUna, dif_pos h, if_pos rfl, heq, Nat.mod_add_mod]
      congr 1
      omega
  | case2 i una h hseq =>
    intro huna
    left
    refine ⟨?_, ?_⟩
    · rw [advanceUna, dif_pos h, if_neg hseq]
    · intro h2
      exact hseq
  | case3 i una h =>
    intro huna
    left
    exact ⟨by rw [advanceUna, dif_neg h], fun h2 => absurd h2 h⟩

theorem processing_established_data (now : Int) (st : UcpStream) (p : DPacket)
    (hsess : st.session_id = p.session_id) (hstate : st.state = UcpState.ESTABLISHED)
    (hcmd : p.cmd = 131) :
    processing now st p = processData
      { st with
        alive_time := now, remote_window := p.window,
        send_queue := processUna p.una st.send_queue } p := by
  unfold processing
  rw [if_neg (show ¬ st.session_id ≠ p.session_id from fun h => h hsess)]
  simp only [hstate]
  simp only [processStateEstablished, hcmd]
  norm_num

/-! ## C8: duplicate DATA idempotence -/

/-- Claim C8: for an ESTABLISHED stream, receiving a DATA packet carrying
the same (session_id, seq) as one already processed - in particular a
retransmitted duplicate whose timestamp, window, una, xmit or payload
were refreshed by timeout_resend - appends exactly one additional
(seq, timestamp) pair to ack_list and leaves the receive side unchanged:
recv_queue, una and the bytes recv subsequently delivers are identical
to the state after the first receipt.  (The two bounds ask that the
queue hold fewer than 2^31 packets and that una be a u32 value, both
guaranteed in the machine.) -/
theorem duplicate_data_idempotent (now1 now2 : Int) (st : UcpStream) (p1 p2 : DPacket)
    (hsess1 : st.session_id = p1.session_id) (hsess2 : p2.session_id = p1.session_id)
    (hseq : p2.seq = p1.seq) (hstate : st.state = UcpState.ESTABLISHED)
    (hcmd1 : p1.cmd = 131) (hcmd2 : p2.cmd = 131)
    (hlen : st.recv_queue.length < 2147483648) (huna : st.una < 4294967296) :
    (processing now2 (processing now1 st p1) p2).ack_list =
      (processing now1 st p1).ack_list ++ [(p2.seq, p2.timestamp)] ∧
    (processing now2 (processing now1 st p1) p2).recv_queue =
      (processing now1 st p1).recv_queue ∧
    (processing now2 (processing now1 st p1) p2).una = (processing now1 st p1).una ∧
    ∀ cap : Nat, ((processing now2 (processing now1 st p1) p2).recv cap).1 =
      ((processing now1 st p1).recv cap).1 := by
  have hsess2' : st.session_id = p2.session_id := hsess1.trans hsess2.symm
  by_cases hA : seqBefore p1.seq st.una = true
  · have e1 : processing now1 st p1 =
        { st with
          alive_time := now1, remote_window := p1.window,
          send_queue := processUna p1.una st.send_queue,
          ack_list := st.ack_list ++ [(p1.seq, p1.timestamp)] } := by
      rw [processing_established_data now1 st p1 hsess1 hstate hcmd1]
      simp only [processData]
      rw [if_pos hA]
    have e2 : processing now2
        { st with
          alive_time := now1, remote_window := p1.window,
          send_queue := processUna p1.una st.send_queue,
          ack_list := st.ack_list ++ [(p1.seq, p1.timestamp)] } p2 =
        { st with
          alive_time := now2, remote_window := p2.window,
          send_queue := processUna p2.una (processUna p1.una st.send_queue),
          ack_list := st.ack_list ++ [(p1.seq, p1.timestamp)] ++ [(p2.seq, p2.timestamp)] } := by
      rw [processing_established_data now2
        { st with
          alive_time := now1, remote_window := p1.window,
          send_queue := processUna p1.una st.send_queue,
          ack_list := st.ack_list ++ [(p1.seq, p1.timestamp)] }
        p2 hsess2' hstate hcmd2]
      simp only [processData]
      rw [if_pos (show seqBefore p2.seq st.una = true by rw [hseq]; exact hA)]
    rw [e1, e2]
    exact ⟨rfl, rfl, rfl, fun cap => rfl⟩
  · cases hF : findPos p1.seq st.recv_queue with
    | none =>
      have e1 : processing now1 st p1 =
          { st with
            alive_time := now1, remote_window := p1.window,
            send_queue := processUna p1.una st.send_queue,
            ack_list := st.ack_list ++ [(p1.seq, p1.timestamp)] } := by
        rw [processing_established_data now1 st p1 hsess1 hstate hcmd1]
        simp only [processData]
        rw [if_neg hA, hF]
      have e2 : processing now2
          { st with
            alive_time := now1, remote_window := p1.window,
            send_queue := processUna p1.una st.send_queue,
            ack_list := st.ack_list ++ [(p1.seq, p1.timestamp)] } p2 =
          { st with
            alive_time := now2, remote_window := p2.window,
            send_queue := processUna p2.una (processUna p1.una st.send_queue),
            ack_list := st.ack_list ++ [(p1.seq, p1.timestamp)] ++ [(p2.seq, p2.timestamp)] } := by
        rw [processing_established_data now2
          { st with
            alive_time := now1, remote_window := p1.window,
            send_queue := processUna p1.una st.send_queue,
            ack_list := st.ack_list ++ [(p1.seq, p1.timestamp)] }
          p2 hsess2' hstate hcmd2]
        simp only [processData]
        rw [if_neg (show ¬ seqBefore p2.seq st.una = true by rw [hseq]; exact hA)]
        rw [show findPos p2.seq st.recv_queue = none by rw [hseq]; exact hF]
      rw [e1, e2]
      exact ⟨rfl, rfl, rfl, fun cap => rfl⟩
    | some pos =>
      have hposle : pos ≤ st.recv_queue.length := findPos_le p1.seq st.recv_queue pos hF
      have hq1len : (List.insertIdx pos p1 st.recv_queue).length = st.recv_queue.length + 1 :=
        List.length_insertIdx pos st.recv_queue hposle
      have e1 : processing now1 st p1 =
          { st with
            alive_time := now1, remote_window := p1.window,
            send_queue := processUna p1.una st.send_queue,
            recv_queue := List.insertIdx pos p1 st.recv_queue,
            ack_list := st.ack_list ++ [(p1.seq, p1.timestamp)],
            una := advanceUna (List.insertIdx pos p1 st.recv_queue) pos st.una } := by
        rw [processing_established_data now1 st p1 hsess1 hstate hcmd1]
        simp only [processData]
        rw [if_neg hA, hF]
      rcases advanceUna_cases (List.insertIdx pos p1 st.recv_queue) pos st.una huna with
        ⟨hu, _⟩ | ⟨k, hk1, hk2, ⟨hltq, hstep⟩, hu⟩
      · have hgate2 : ¬ seqBefore p2.seq
            (advanceUna (List.insertIdx pos p1 st.recv_queue) pos st.una) = true := by
          rw [hu, hseq]
          exact hA
        have hF2 : findPos p2.seq (List.insertIdx pos p1 st.recv_queue) = none := by
          rw [hseq]
          exact findPos_insert_dup p1.seq p1 rfl st.recv_queue pos hF
        have e2 : processing now2
            { st with
              alive_time := now1, remote_window := p1.window,
              send_queue := processUna p1.una st.send_queue,
              recv_queue := List.insertIdx pos p1 st.recv_queue,
              ack_list := st.ack_list ++ [(p1.seq, p1.timestamp)],
              una := advanceUna (List.insertIdx pos p1 st.recv_queue) pos st.una } p2 =
            { st with
              alive_time := now2, remote_window := p2.window,
              send_queue := processUna p2.una (processUna p1.una st.send_queue),
              recv_queue := List.insertIdx pos p1 st.recv_queue,
              ack_list := st.ack_list ++ [(p1.seq, p1.timestamp)] ++ [(p2.seq, p2.timestamp)],
              una := advanceUna (List.insertIdx pos p1 st.recv_queue) pos st.una } := by
          rw [processing_established_data now2
            { st with
              alive_time := now1, remote_window := p1.window,
              send_queue := processUna p1.una st.send_queue,
              recv_queue := List.insertIdx pos p1 st.recv_queue,
              ack_list := st.ack_list ++ [(p1.seq, p1.timestamp)],
              una := advanceUna (List.insertIdx pos p1 st.recv_queue) pos st.una }
            p2 hsess2' hstate hcmd2]
          simp only [processData]
          rw [if_neg hgate2, hF2]
        rw [e1, e2]
        exact ⟨rfl, rfl, rfl, fun cap => rfl⟩
      · have hget : (List.insertIdx pos p1 st.recv_queue).get ⟨pos, hltq⟩ = p1 := by
          rw [List.get_eq_getElem]
          exact List.getElem_insertIdx_self st.recv_queue p1 pos hposle
        rw [hget] at hstep
        have hgate2 : seqBefore p2.seq
            (advanceUna (List.insertIdx pos p1 st.recv_queue) pos st.una) = true := by
          rw [hu, hseq, hstep]
          simp only [seqBefore, sub32, decide_eq_true_eq]
          omega
        have e2 : processing now2
            { st with
              alive_time := now1, remote_window := p1.window,
              send_queue := processUna p1.una st.send_queue,
              recv_queue := List.insertIdx pos p1 st.recv_queue,
              ack_list := st.ack_list ++ [(p1.seq, p1.timestamp)],
              una := advanceUna (List.insertIdx pos p1 st.recv_queue) pos st.una } p2 =
            { st with
              alive_time := now2, remote_window := p2.window,
              send_queue := processUna p2.una (processUna p1.una st.send_queue),
              recv_queue := List.insertIdx pos p1 st.recv_queue,
              ack_list := st.ack_list ++ [(p1.seq, p1.timestamp)] ++ [(p2.seq, p2.timestamp)],
              una := advanceUna (List.insertIdx pos p1 st.recv_queue) pos st.una } := by
          rw [processing_established_data now2
            { st with
              alive_time := now1, remote_window := p1.window,
              send_queue := processUna p1.una st.send_queue,
              recv_queue := List.insertIdx pos p1 st.recv_queue,
              ack_list := st.ack_list ++ [(p1.seq, p1.timestamp)],
              una := advanceUna (List.insertIdx pos p1 st.recv_queue) pos st.una }
            p2 hsess2' hstate hcmd2]
          simp only [processData]
          rw [if_pos hgate2]
        rw [e1, e2]
        exact ⟨rfl, rfl, rfl, fun cap => rfl⟩

/-- Witness for C8 at the baseline established stream: the duplicate is a
retransmission of the seq-1 DATA packet with refreshed timestamp, window
and una fields, received at a later time. -/
theorem duplicate_data_idempotent_witness :
    (st0.session_id = ({ dp0 with timestamp := 50, window := 600, una := 1 } : DPacket).session_id ∧
      ({ dp0 with timestamp := 50, window := 600, una := 1 } : DPacket).seq = dp0.seq ∧
      st0.state = UcpState.ESTABLISHED ∧ dp0.cmd = 131 ∧
      st0.recv_queue.length < 2147483648 ∧ st0.una < 4294967296) ∧
    (processing 7 (processing 0 st0 dp0)
        { dp0 with timestamp := 50, window := 600, una := 1 }).ack_list =
      (processing 0 st0 dp0).ack_list ++
        [(({ dp0 with timestamp := 50, window := 600, una := 1 } : DPacket).seq,
          ({ dp0 with timestamp := 50, window := 600, una := 1 } : DPacket).timestamp)] ∧
    (processing 7 (processing 0 st0 dp0)
        { dp0 with timestamp := 50, window := 600, una := 1 }).recv_queue =
      (processing 0 st0 dp0).recv_queue ∧
    (processing 7 (processing 0 st0 dp0)
        { dp0 with timestamp := 50, window := 600, una := 1 }).una =
      (processing 0 st0 dp0).una := by
  have h := duplicate_data_idempotent 0 7 st0 dp0
    { dp0 with timestamp := 50, window := 600, una := 1 }
    rfl rfl rfl rfl rfl rfl (by norm_num [st0]) (by norm_num [st0])
  exact ⟨⟨rfl, rfl, rfl, rfl, by norm_num [st0], by norm_num [st0]⟩, h.1, h.2.1, h.2.2.1⟩

theorem sub32_transfer (a b c : Nat) (ha : a < 4294967296) (hb : b < 4294967296)
    (hda : sub32 a c < 2147483648) (hdb : sub32 b c ≤ 2147483648) :
    (sub32 a b = 0 ↔ sub32 a c = sub32 b c) ∧
    (2147483648 ≤ sub32 a b ↔ sub32 a c < sub32 b c) := by
  simp only [sub32] at hda hdb ⊢
  omega

theorem sub32_succ (una base : Nat) (h : una < 4294967296) :
    sub32 ((una + 1) % 4294967296) base = (sub32 una base + 1) % 4294967296 := by
  simp only [sub32]
  omega

theorem findPos_window (base : Nat) (p : DPacket) (hp : p.seq < 4294967296)
    (hpw : sub32 p.seq base < 2147483648) :
    ∀ q : List DPacket,
    List.Pairwise (fun x y => sub32 x.seq base < sub32 y.seq base) q →
    (∀ x ∈ q, sub32 x.seq base < 2147483648 ∧ x.seq < 4294967296) →
    ((∃ x ∈ q, x.seq = p.seq) → findPos p.seq q = none) ∧
    (∀ pos, findPos p.seq q = some pos →
      pos ≤ q.length ∧
      (∀ i (h : i < q.length), i < pos → sub32 (q.get ⟨i, h⟩).seq base < sub32 p.seq base) ∧
      (∀ i (h : i < q.length), pos ≤ i → sub32 p.seq base < sub32 (q.get ⟨i, h⟩).seq base)) := by
  intro q
  induction q with
  | nil =>
    intro _ _
    refine ⟨by simp, ?_⟩
    intro pos h
    simp only [findPos, Option.some.injEq] at h
    subst h
    refine ⟨by simp, by simp, by simp⟩
  | cons x xs ih =>
    intro hpair hwin
    have hx := hwin x (List.mem_cons_self x xs)
    have hxs : ∀ y ∈ xs, sub32 y.seq base < 2147483648 ∧ y.seq < 4294967296 :=
      fun y hy => hwin y (List.mem_cons_of_mem x hy)
    have hxlt : ∀ y ∈ xs, sub32 x.seq base < sub32 y.seq base :=
      fun y hy => (List.pairwise_cons.mp hpair).1 y hy
    have hpair' := (List.pairwise_cons.mp hpair).2
    have htr := sub32_transfer p.seq x.seq base hp hx.2 hpw (le_of_lt hx.1)
    obtain ⟨ihdup, ihpos⟩ := ih hpair' hxs
    by_cases h0 : sub32 p.seq x.seq = 0
    · have hbeq : sub32 p.seq base = sub32 x.seq base := htr.1.mp h0
      refine ⟨fun _ => ?_, ?_⟩
      · simp [findPos, h0]
      · intro pos hpos
        simp [findPos, h0] at hpos
    · by_cases h1 : 2147483648 ≤ sub32 p.seq x.seq
      · have hblt : sub32 p.seq base < sub32 x.seq base := htr.2.mp h1
        refine ⟨?_, ?_⟩
        · rintro ⟨y, hy, hyseq⟩
          rcases List.mem_cons.mp hy with rfl | hy'
          · exact absurd (htr.1.mpr (by rw [hyseq])) h0
          · have := hxlt y hy'
            have hby : sub32 y.seq base = sub32 p.seq base := by rw [hyseq]
            omega
        · intro pos hpos
          simp only [findPos, if_neg h0, if_pos h1, Option.some.injEq] at hpos
          subst hpos
          refine ⟨by simp, by omega, ?_⟩
          intro i h _
          match i with
          | 0 => exact hblt
          | i + 1 =>
            have hi : i < xs.length := by simpa using h
            have hmem : xs.get ⟨i, hi⟩ ∈ xs := List.get_mem _ _ _
            have := hxlt _ hmem
            have hgg : ((x :: xs).get ⟨i + 1, h⟩) = xs.get ⟨i, hi⟩ := rfl
            rw [hgg]
            omega
      · have hbgt : sub32 x.seq base < sub32 p.seq base := by
          have hne : sub32 p.seq base ≠ sub32 x.seq base := fun he => h0 (htr.1.mpr he)
          have hnlt : ¬ sub32 p.seq base < sub32 x.seq base := fun hl => h1 (htr.2.mpr hl)
          omega
        refine ⟨?_, ?_⟩
        · rintro ⟨y, hy, hyseq⟩
          rcases List.mem_cons.mp hy with rfl | hy'
          · exact absurd (htr.1.mpr (by rw [hyseq])) h0
          · have hnone := ihdup ⟨y, hy', hyseq⟩
            simp [findPos, h0, h1, hnone]
        · intro pos hpos
          simp only [findPos, if_neg h0, if_neg h1] at hpos
          rcases Option.map_eq_some'.mp hpos with ⟨k, hk, hpos'⟩
          subst hpos'
          obtain ⟨hk_le, hk_before, hk_after⟩ := ihpos k hk
          refine ⟨by simp; omega, ?_, ?_⟩
          · intro i h hik
            match i with
            | 0 => exact hbgt
            | i + 1 =>
              have hi : i < xs.length := by simpa using h
              have hgg : ((x :: xs).get ⟨i + 1, h⟩) = xs.get ⟨i, hi⟩ := rfl
              rw [hgg]
              exact hk_before i hi (by omega)
          · intro i h hik
            match i with
            | 0 => omega
            | i + 1 =>
              have hi : i < xs.length := by simpa using h
              have hgg : ((x :: xs).get ⟨i + 1, h⟩) = xs.get ⟨i, hi⟩ := rfl
              rw [hgg]
              exact hk_after i hi (by omega)

theorem pairwise_insertIdx (R : DPacket → DPacket → Prop) (p : DPacket) :
    ∀ (q : List DPacket) (pos : Nat), pos ≤ q.length →
    List.Pairwise R q →
    (∀ i (h : i < q.length), i < pos → R (q.get ⟨i, h⟩) p) →
    (∀ i (h : i < q.length), pos ≤ i → R p (q.get ⟨i, h⟩)) →
    List.Pairwise R (q.insertIdx pos p) := by
  intro q
  induction q with
  | nil =>
    intro pos hpos _ _ _
    have h0 : pos = 0 := by simpa using hpos
    subst h0
    simp
  | cons x xs ih =>
    intro pos hpos hpair hbefore hafter
    match pos with
    | 0 =>
      rw [List.insertIdx_zero]
      refine List.pairwise_cons.mpr ⟨?_, hpair⟩
      intro y hy
      rcases List.get_of_mem hy with ⟨⟨i, hi⟩, rfl⟩
      exact hafter i hi (Nat.zero_le i)
    | pos + 1 =>
      rw [List.insertIdx_succ_cons]
      have hpos' : pos ≤ xs.length := by simpa using hpos
      have hpair' := (List.pairwise_cons.mp hpair).2
      have hxall := (List.pairwise_cons.mp hpair).1
      refine List.pairwise_cons.mpr ⟨?_, ?_⟩
      · intro y hy
        rcases List.mem_insertIdx hpos' |>.mp hy with rfl | hy'
        · exact hbefore 0 (Nat.succ_pos _) (Nat.succ_pos _)
        · exact hxall y hy'
      · refine ih pos hpos' hpair' ?_ ?_
        · intro i hi hilt
          have := hbefore (i + 1) (by simpa using hi) (by omega)
          simpa using this
        · intro i hi hile
          have := hafter (i + 1) (by simpa using hi) (by omega)
          simpa using this

theorem advanceUna_window (base : Nat) (q : List DPacket)
    (helem : ∀ x ∈ q, sub32 x.seq base < 2147483648) :
    ∀ (i una : Nat), una < 4294967296 → sub32 una base ≤ 2147483648 →
    sub32 (advanceUna q i una) base ≤ 2147483648 ∧ advanceUna q i una < 4294967296 := by
  intro i una
  induction i, una using advanceUna.induct q with
  | case1 i h ih =>
    intro huna hbu
    set s := (q.get ⟨i, h⟩).seq with hs
    have hselem : sub32 s base < 2147483648 := helem _ (List.get_mem _ _ _)
    rw [advanceUna, dif_pos h, if_pos rfl]
    have h1 : (s + 1) % 4294967296 < 4294967296 := by omega
    have h2 : sub32 ((s + 1) % 4294967296) base ≤ 2147483648 := by
      rw [sub32_succ s base huna]
      omega
    exact ih h1 h2
  | case2 i una h hseq =>
    intro huna hbu
    rw [advanceUna, dif_pos h, if_neg hseq]
    exact ⟨hbu, huna⟩
  | case3 i una h =>
    intro huna hbu
    rw [advanceUna, dif_neg h]
    exact ⟨hbu, huna⟩

theorem advanceUna_run (q : List DPacket) : ∀ (i una : Nat), una < 4294967296 →
    ∃ k, advanceUna q i una = (una + k) % 4294967296 ∧
      ((q.drop i).take k).map DPacket.seq =
        (List.range k).map (fun j => (una + j) % 4294967296) ∧
      (∀ x, (q.drop (i + k)).head? = some x → x.seq ≠ (una + k) % 4294967296) := by
  intro i una
  induction i, una using advanceUna.induct q with
  | case1 i h ih =>
    intro huna
    obtain ⟨k, heq, hrun, hstop⟩ := ih (by omega)
    refine ⟨k + 1, ?_, ?_, ?_⟩
    · rw [advanceUna, dif_pos h, if_pos rfl, heq, Nat.mod_add_mod]
      congr 1
      omega
    · rw [List.drop_eq_getElem_cons h, List.take_succ_cons, List.map_cons,
        List.range_succ_eq_map, List.map_cons, List.map_map]
      congr 1
      · simp only [List.get_eq_getElem] at *
        omega
      · rw [hrun]
        apply List.map_congr_left
        intro a _
        simp only [Function.comp_apply, Nat.succ_eq_add_one]
        omega
    · intro x hx
      have hidx : i + (k + 1) = (i + 1) + k := by omega
      rw [hidx] at hx
      have := hstop x hx
      omega
  | case2 i una h hseq =>
    intro huna
    refine ⟨0, ?_, by simp, ?_⟩
    · rw [advanceUna, dif_pos h, if_neg hseq]
      omega
    · intro x hx
      rw [Nat.add_zero, List.head?_drop, List.getElem?_eq_getElem h,
        Option.some.injEq] at hx
      subst hx
      simp only [List.get_eq_getElem] at hseq
      omega
  | case3 i una h =>
    intro huna
    refine ⟨0, by rw [advanceUna, dif_neg h]; omega, by simp, ?_⟩
    intro x hx
    rw [Nat.add_zero, List.head?_drop] at hx
    have hlen : q.length ≤ i := by omega
    rw [List.getElem?_eq_none hlen] at hx
    exact absurd hx (by simp)

/-! ## C1: receive-queue invariant -/

/-- Claim C1 (amended): relative to any window base b with all queued
seqs in the forward half-window and the incoming packet's seq in the
window too, process_data preserves well-formedness: recv_queue stays
strictly increasing by forward distance from b (the signed-comparison
order, which is plain increase by seq while no wrap occurs); a packet
whose seq precedes una under the signed test is dropped; a packet whose
seq equals a queued seq is dropped; otherwise the packet is inserted at
its scan position pos, and una advances by exactly one step per
consecutive queued packet equal to it: una becomes una + k modulo 2^32
where, from position pos, the first k queued packets carry exactly the
seqs una, una+1, ..., una+k-1 and the next queued packet (if any) does
not carry una+k.  The (seq, timestamp) pair is always appended to
ack_list. -/
theorem process_data_window_invariant (st : UcpStream) (p : DPacket) (base : Nat)
    (hwf : RecvWF base st.una st.recv_queue)
    (hp : p.seq < 4294967296) (hpw : sub32 p.seq base < 2147483648) :
    RecvWF base (processData st p).una (processData st p).recv_queue ∧
    (seqBefore p.seq st.una = true →
      (processData st p).recv_queue = st.recv_queue ∧ (processData st p).una = st.una) ∧
    ((∃ x ∈ st.recv_queue, x.seq = p.seq) →
      (processData st p).recv_queue = st.recv_queue ∧ (processData st p).una = st.una) ∧
    (seqBefore p.seq st.una = false → findPos p.seq st.recv_queue = none →
      (processData st p).recv_queue = st.recv_queue ∧ (processData st p).una = st.una) ∧
    (∀ pos, seqBefore p.seq st.una = false → findPos p.seq st.recv_queue = some pos →
      (processData st p).recv_queue = st.recv_queue.insertIdx pos p ∧
      ∃ k, (processData st p).una = (st.una + k) % 4294967296 ∧
        (((st.recv_queue.insertIdx pos p).drop pos).take k).map DPacket.seq =
          (List.range k).map (fun j => (st.una + j) % 4294967296) ∧
        (∀ x, ((st.recv_queue.insertIdx pos p).drop (pos + k)).head? = some x →
          x.seq ≠ (st.una + k) % 4294967296)) ∧
    (processData st p).ack_list = st.ack_list ++ [(p.seq, p.timestamp)] := by
  obtain ⟨hpair, helem, hbu, huna⟩ := hwf
  by_cases hg : seqBefore p.seq st.una = true
  · have hres : processData st p =
        { st with ack_list := st.ack_list ++ [(p.seq, p.timestamp)] } := by
      simp only [processData]
      rw [if_pos hg]
    rw [hres]
    refine ⟨⟨hpair, helem, hbu, huna⟩, fun _ => ⟨rfl, rfl⟩, fun _ => ⟨rfl, rfl⟩,
      ?_, ?_, rfl⟩
    · intro hgf
      rw [hg] at hgf
      exact absurd hgf (by simp)
    · intro pos hgf
      rw [hg] at hgf
      exact absurd hgf (by simp)
  · obtain ⟨hdup, hposspec⟩ := findPos_window base p hp hpw st.recv_queue hpair helem
    cases hF : findPos p.seq st.recv_queue with
    | none =>
      have hres : processData st p =
          { st with ack_list := st.ack_list ++ [(p.seq, p.timestamp)] } := by
        simp only [processData]
        rw [if_neg hg, hF]
      rw [hres]
      refine ⟨⟨hpair, helem, hbu, huna⟩, fun _ => ⟨rfl, rfl⟩, fun _ => ⟨rfl, rfl⟩,
        fun _ _ => ⟨rfl, rfl⟩, ?_, rfl⟩
      intro pos _ hsome
      exact absurd hsome (by simp)
    | some pos =>
      obtain ⟨hple, hbef, haft⟩ := hposspec pos hF
      have hres : processData st p =
          { st with
            recv_queue := st.recv_queue.insertIdx pos p,
            una := advanceUna (st.recv_queue.insertIdx pos p) pos st.una,
            ack_list := st.ack_list ++ [(p.seq, p.timestamp)] } := by
        simp only [processData]
        rw [if_neg hg, hF]
      rw [hres]
      have hq1pair : List.Pairwise (fun x y => sub32 x.seq base < sub32 y.seq base)
          (st.recv_queue.insertIdx pos p) :=
        pairwise_insertIdx _ p st.recv_queue pos hple hpair hbef haft
      have hq1elem : ∀ x ∈ st.recv_queue.insertIdx pos p,
          sub32 x.seq base < 2147483648 ∧ x.seq < 4294967296 := by
        intro x hx
        rcases (List.mem_insertIdx hple).mp hx with rfl | hx'
        · exact ⟨hpw, hp⟩
        · exact helem x hx'
      have hadv := advanceUna_window base (st.recv_queue.insertIdx pos p)
        (fun x hx => (hq1elem x hx).1) pos st.una huna hbu
      refine ⟨⟨hq1pair, hq1elem, hadv.1, hadv.2⟩, ?_, ?_, ?_, ?_, rfl⟩
      · intro hgt
        exact absurd hgt hg
      · intro hdup_ex
        have := hdup hdup_ex
        rw [hF] at this
        exact absurd this (by simp)
      · intro _ hnone
        exact absurd hnone (by simp)
      · intro pos2 _ hsome
        rw [Option.some.injEq] at hsome
        subst hsome
        refine ⟨rfl, ?_⟩
        show ∃ k, advanceUna (st.recv_queue.insertIdx pos p) pos st.una =
            (st.una + k) % 4294967296 ∧ _
        exact advanceUna_run (st.recv_queue.insertIdx pos p) pos st.una huna

/-- Witness for C1 (amended) at the baseline stream, base 0 and an
incoming DATA packet with seq 2. -/
theorem process_data_window_invariant_witness :
    (RecvWF 0 st0.una st0.recv_queue ∧ (2 : Nat) < 4294967296 ∧ sub32 2 0 < 2147483648) ∧
    RecvWF 0 (processData st0 { dp0 with seq := 2 }).una
      (processData st0 { dp0 with seq := 2 }).recv_queue ∧
    (processData st0 { dp0 with seq := 2 }).ack_list =
      st0.ack_list ++ [(({ dp0 with seq := 2 } : DPacket).seq,
        ({ dp0 with seq := 2 } : DPacket).timestamp)] := by
  have hwf : RecvWF 0 st0.una st0.recv_queue :=
    ⟨List.Pairwise.nil, by simp [st0], by norm_num [sub32, st0], by norm_num [st0]⟩
  have h := process_data_window_invariant st0 { dp0 with seq := 2 } 0 hwf
    (by norm_num) (by norm_num [sub32])
  exact ⟨⟨hwf, by norm_num, by norm_num [sub32]⟩, h.1, h.2.2.2.2.2⟩

theorem advanceUna_singleton (x : DPacket) (u : Nat) (h : x.seq = u) :
    advanceUna [x] 0 u = (u + 1) % 4294967296 := by
  rw [advanceUna, dif_pos (by simp), if_pos (by simpa using h)]
  rw [advanceUna, dif_neg (by simp)]

theorem advanceUna_pair_snd (a b : DPacket) (u : Nat) (h : b.seq = u) :
    advanceUna [a, b] 1 u = (u + 1) % 4294967296 := by
  rw [advanceUna, dif_pos (by simp), if_pos (by simpa using h)]
  rw [advanceUna, dif_neg (by simp)]

/-- Counterexample for C1 as stated: from an established stream whose una
is 4294967295 (reachable - the SYN acceptor sets una = syn.seq + 1 with
a wrapping increment), receiving DATA seq 4294967295 wraps una to 0, so
the field una decreases; then receiving DATA seq 0 queues it after the
first packet, leaving recv_queue ordered [4294967295, 0], which is not
strictly increasing by seq. -/
theorem recv_queue_u32_sort_counterexample :
    (processData { st0 with una := 4294967295 } { dp0 with seq := 4294967295 }).una = 0 ∧
    (processData { st0 with una := 4294967295 } { dp0 with seq := 4294967295 }).una <
      ({ st0 with una := 4294967295 } : UcpStream).una ∧
    ((processData (processData { st0 with una := 4294967295 } { dp0 with seq := 4294967295 })
        { dp0 with seq := 0 }).recv_queue.map DPacket.seq) = [4294967295, 0] ∧
    ¬ List.Pairwise (· < ·)
      ((processData (processData { st0 with una := 4294967295 } { dp0 with seq := 4294967295 })
        { dp0 with seq := 0 }).recv_queue.map DPacket.seq) := by
  have e1 : processData { st0 with una := 4294967295 } { dp0 with seq := 4294967295 } =
      { st0 with
        una := 0,
        recv_queue := [{ dp0 with seq := 4294967295 }],
        ack_list := [(4294967295, 0)] } := by
    simp only [processData, st0, dp0]
    rw [if_neg (by norm_num [seqBefore, sub32])]
    simp only [findPos]
    simp only [List.insertIdx_zero]
    rw [advanceUna_singleton _ _ rfl]
    norm_num
  rw [e1]
  have e2 : processData
      { st0 with
        una := 0,
        recv_queue := [{ dp0 with seq := 4294967295 }],
        ack_list := [(4294967295, 0)] } { dp0 with seq := 0 } =
      { st0 with
        una := 1,
        recv_queue := [{ dp0 with seq := 4294967295 }, { dp0 with seq := 0 }],
        ack_list := [(4294967295, 0), (0, 0)] } := by
    simp only [processData, st0, dp0]
    rw [if_neg (by norm_num [seqBefore, sub32])]
    simp only [findPos]
    rw [if_neg (by norm_num [sub32]), if_neg (by norm_num [sub32])]
    simp only [findPos, Option.map_some']
    simp only [List.insertIdx_succ_cons, List.insertIdx_zero]
    rw [advanceUna_pair_snd _ _ _ rfl]
    norm_num
  rw [e2]
  refine ⟨rfl, by norm_num [st0], rfl, ?_⟩
  intro hpair
  have := (List.pairwise_cons.mp hpair).1 0 (by simp)
  omega
